import Mathlib

/-!
Shallow embedding of the Durak card-game engine
(src/firstgamble_api/durak_logic.py) and its room manager
(src/firstgamble_api/durak_manager.py).

Conventions of the embedding:
* Python lists become Lean lists; Python mutation of a player object in
  place becomes a functional update of the players list at that index.
* Python exceptions (TypeError on subscripting None, KeyError on a missing
  dict key, IndexError on list indexing, ValueError from RANKS.index) are
  modelled by the error side of Except PyErr; actions that the source
  silently no-ops return the unchanged game on the ok side.
* random.shuffle is modelled by passing the shuffled card list to
  start_game as an explicit parameter.
* The economy gateway (get_balance / add_points of redis_utils) is an
  external collaborator; get_balance is a parameter and add_points calls
  are recorded as an ordered call log in the manager state.
* time.time() timestamps are passed in as an abstract parameter.
-/

namespace FirstGamble

/-- A playing card: a rank and a suit, both strings as in the source. -/
structure Card where
  rank : String
  suit : String
deriving DecidableEq, Repr

/-- The fixed rank order of durak_logic.RANKS. -/
def RANKS : List String := ["2", "3", "4", "5", "6", "7", "8", "9", "T", "J", "Q", "K", "A"]

/-- The four suits of durak_logic.SUITS. -/
def SUITS : List String := ["H", "D", "C", "S"]

/-- Python exceptions that the engine code can raise. -/
inductive PyErr where
  | typeError
  | keyError
  | indexError
  | valueError
deriving DecidableEq, Repr

/-- rank_value of the source: RANKS.index(r); list.index raises ValueError
when the rank string is not present. -/
def rank_value (r : String) : Except PyErr Nat :=
  if r ∈ RANKS then .ok (RANKS.indexOf r) else .error .valueError

/-- Total version of rank_value, used where the source only ever sees
cards built from RANKS (deck construction and the trump scan). -/
def rankValueT (r : String) : Nat := RANKS.indexOf r

/-- A loosely typed card payload as delivered in a client message:
either absent (None in Python) or a dict that may be missing keys. -/
structure CardDict where
  rank : Option String := none
  suit : Option String := none
deriving DecidableEq, Repr

/-- Card(card_dict[rank], card_dict[suit]) of the source: subscripting
None raises TypeError, a missing key raises KeyError. -/
def cardFromDict : Option CardDict → Except PyErr Card
  | none => .error .typeError
  | some d =>
    match d.rank, d.suit with
    | some r, some s => .ok ⟨r, s⟩
    | _, _ => .error .keyError

/-- Python list subscription: raises IndexError when out of range. -/
def pyIdx {α : Type} (l : List α) (i : Nat) : Except PyErr α :=
  match l[i]? with
  | some x => .ok x
  | none => .error .indexError

/-- A seated player (durak_logic.Player); last_active is an abstract
timestamp. -/
structure Player where
  uid : Nat
  name : String
  hand : List Card := []
  is_ready : Bool := false
  is_out : Bool := false
  last_active : Nat := 0
deriving DecidableEq, Repr

/-- The settings dict of a room; absent keys are none, matching
settings.get of the source. -/
structure GameSettings where
  size : Option Nat := none
  mode : Option String := none
deriving DecidableEq, Repr

/-- The authoritative per-room game state (durak_logic.DurakGame).
deck is none until start_game builds it, as in the Python constructor. -/
structure DurakGame where
  room_id : String
  settings : GameSettings
  players : List Player := []
  deck : Option (List Card) := none
  trump_card : Option Card := none
  trump_suit : Option String := none
  table : List (Card × Option Card) := []
  attacker_idx : Nat := 0
  defender_idx : Nat := 1
  state : String := "waiting"
  turn_state : String := "attack"
  pass_count : Nat := 0
  winner_order : List Nat := []
deriving DecidableEq, Repr

/-- Deck construction before the shuffle: the rank range depends on the
size (9+ for 24 cards, 6+ for 36, 2+ for 52, default start 0), suits
outermost, mirroring the nested loops of Deck.__init__. -/
def buildDeck (size : Nat) : List Card :=
  let start_idx : Nat :=
    if size = 24 then RANKS.indexOf "9"
    else if size = 36 then RANKS.indexOf "6"
    else if size = 52 then 0
    else 0
  SUITS.flatMap (fun s => (RANKS.drop start_idx).map (fun r => Card.mk r s))

/-- Deck.draw removes from the end of the card list (Python list.pop). -/
def drawCard (deck : List Card) : Option Card × List Card :=
  match deck.getLast? with
  | some c => (some c, deck.dropLast)
  | none => (none, deck)

/-- One round of the deal: each player in seat order draws one card,
skipping the append when the deck has run out (draw returned None). -/
def dealRound : List Player → List Card → List Player × List Card
  | [], deck => ([], deck)
  | p :: ps, deck =>
    match deck.getLast? with
    | none => (p :: ps, deck)
    | some c =>
      let (ps', deck') := dealRound ps deck.dropLast
      ({ p with hand := p.hand ++ [c] } :: ps', deck')

/-- The k dealing rounds of start_game (k = 6 in the source). -/
def dealRounds : Nat → List Player → List Card → List Player × List Card
  | 0, ps, deck => (ps, deck)
  | k + 1, ps, deck =>
    let (ps', deck') := dealRound ps deck
    dealRounds k ps' deck'

/-- Inner loop of the first-attacker scan: fold over one hand carrying
(min_trump, starter_idx), updating on a strictly smaller trump rank. -/
def scanHand (trump : Option String) (i : Nat) (acc : Nat × Nat) (hand : List Card) : Nat × Nat :=
  hand.foldl
    (fun a c =>
      if some c.suit = trump ∧ rankValueT c.rank < a.1 then (rankValueT c.rank, i) else a)
    acc

/-- The full first-attacker scan of start_game, seats in order, with the
initial accumulator (100, 0). -/
def scanStarter (ps : List Player) (trump : Option String) : Nat × Nat :=
  ps.enum.foldl (fun a ip => scanHand trump ip.1 a ip.2.hand) (100, 0)

/-- start_game, with the shuffled deck passed in explicitly (the source
shuffles in Deck.__init__). Deals 6 cards round-robin, sets the trump
from the bottom of the remaining deck (suit H fallback on an empty
deck), picks the holder of the lowest trump as first attacker. -/
def start_game (g : DurakGame) (shuffled : List Card) : DurakGame :=
  if g.players.length < 2 then g
  else
    let dealt := dealRounds 6 g.players shuffled
    let trump_card : Option Card :=
      match dealt.2.head? with
      | some c => some c
      | none => g.trump_card
    let trump_suit : Option String :=
      match dealt.2.head? with
      | some c => some c.suit
      | none => some "H"
    let starter_idx := (scanStarter dealt.1 trump_suit).2
    { g with
      players := dealt.1
      deck := some dealt.2
      trump_card := trump_card
      trump_suit := trump_suit
      attacker_idx := starter_idx
      defender_idx := (starter_idx + 1) % dealt.1.length
      state := "playing"
      turn_state := "attack"
      table := [] }

/-- add_player: only in waiting, at most 4 seats, unique uid. Returns
whether the player was added together with the new state. -/
def add_player (g : DurakGame) (uid : Nat) (name : String) (now : Nat) : Bool × DurakGame :=
  if g.state ≠ "waiting" then (false, g)
  else if 4 ≤ g.players.length then (false, g)
  else if g.players.any (fun p => p.uid == uid) then (false, g)
  else (true, { g with players := g.players ++ [{ uid := uid, name := name, last_active := now }] })

/-- set_ready: update readiness and last_active of every seat with the
given uid (the source loops over all players). -/
def set_ready (g : DurakGame) (uid : Nat) (ready : Bool) (now : Nat) : DurakGame :=
  { g with
    players := g.players.map
      (fun p => if p.uid = uid then { p with is_ready := ready, last_active := now } else p) }

/-- remove_player: drop the seat; abort a running game that falls below
2 seats. -/
def remove_player (g : DurakGame) (uid : Nat) : DurakGame :=
  let ps := g.players.filter (fun p => p.uid ≠ uid)
  if g.state = "playing" ∧ ps.length < 2 then { g with players := ps, state := "aborted" }
  else { g with players := ps }

/-- The set of ranks present on the table (attack cards and present
defend cards), as consulted by the throw-in rule of action_attack. -/
def ranksOnTable (t : List (Card × Option Card)) : List String :=
  t.map (fun pr => pr.1.rank) ++ (t.filterMap (fun pr => pr.2)).map (fun c => c.rank)

/-- Number of unbeaten pairs on the table. -/
def unbeatenCount (t : List (Card × Option Card)) : Nat :=
  (t.filter (fun pr => pr.2 = none)).length

/-- Removal of a card from a hand: the source rebuilds the hand with a
comprehension dropping every copy matching on rank and suit. -/
def removeCard (hand : List Card) (c : Card) : List Card :=
  hand.filter (fun x => ¬(x.rank = c.rank ∧ x.suit = c.suit))

/-- Membership test the source uses to verify a card is held. -/
def handHas (hand : List Card) (c : Card) : Bool :=
  hand.any (fun x => x.rank == c.rank && x.suit == c.suit)

/-- action_attack: attacker opens an empty table, any non-defender may
throw in a rank already present; card must be held; at most 6 pairs;
unbeaten pairs may not exceed the defender hand. -/
def action_attack (g : DurakGame) (uid : Nat) (card_dict : Option CardDict) :
    Except PyErr DurakGame :=
  match g.players.findIdx? (fun p => p.uid == uid) with
  | none => .ok g
  | some p_idx =>
    if p_idx = g.defender_idx then .ok g
    else if g.table = [] ∧ p_idx ≠ g.attacker_idx then .ok g
    else do
      let card ← cardFromDict card_dict
      let p ← pyIdx g.players p_idx
      if ¬ handHas p.hand card then .ok g
      else if g.table ≠ [] ∧ card.rank ∉ ranksOnTable g.table then .ok g
      else if 6 ≤ g.table.length then .ok g
      else do
        let defender ← pyIdx g.players g.defender_idx
        if defender.hand.length < unbeatenCount g.table + 1 then .ok g
        else
          .ok { g with
            players := g.players.set p_idx { p with hand := removeCard p.hand card }
            table := g.table ++ [(card, none)]
            turn_state := "defend"
            pass_count := 0 }

/-- action_defend: only the current defender, against an unbeaten pair
at a valid index, with a held card that beats the attack (same suit and
higher rank, or trump against non-trump). -/
def action_defend (g : DurakGame) (uid : Nat) (attack_card_idx : Option Int)
    (card_dict : Option CardDict) : Except PyErr DurakGame := do
  let defender ← pyIdx g.players g.defender_idx
  if defender.uid ≠ uid then .ok g
  else do
    -- comparing None with 0 raises TypeError in Python 3
    let idx ← match attack_card_idx with
      | none => .error .typeError
      | some i => Except.ok i
    if idx < 0 ∨ (g.table.length : Int) ≤ idx then .ok g
    else do
      let pair ← pyIdx g.table idx.toNat
      if pair.2 ≠ none then .ok g
      else do
        let atk_card := pair.1
        let def_card ← cardFromDict card_dict
        if ¬ handHas defender.hand def_card then .ok g
        else do
          let beats ←
            if atk_card.suit = def_card.suit then do
              let dv ← rank_value def_card.rank
              let av ← rank_value atk_card.rank
              Except.ok (decide (av < dv))
            else
              Except.ok (some def_card.suit == g.trump_suit)
          if !beats then .ok g
          else
            .ok { g with
              players := g.players.set g.defender_idx
                { defender with hand := removeCard defender.hand def_card }
              table := g.table.set idx.toNat (atk_card, some def_card) }

/-- All cards on the table in pickup order: attack card then, when
present, the covering defend card, pair by pair. -/
def tableCards (t : List (Card × Option Card)) : List Card :=
  t.flatMap (fun pr => pr.1 :: pr.2.toList)

/-- Indices visited by the refill loop: n seats starting at the current
attacker, clockwise. -/
def rotatedIdx (start n : Nat) : List Nat :=
  (List.range n).map (fun k => (start + k) % n)

/-- The inner refill loop, structurally recursive on a fuel that bounds
the iteration count (each pass removes one deck card): draw from the
deck end until the hand holds 6 cards or the deck is empty. -/
def refillHandF : Nat → List Card → List Card → List Card × List Card
  | 0, deck, hand => (deck, hand)
  | fuel + 1, deck, hand =>
    if hand.length < 6 then
      match deck.getLast? with
      | some c => refillHandF fuel deck.dropLast (hand ++ [c])
      | none => (deck, hand)
    else (deck, hand)

/-- The inner refill loop of _next_turn: deck.length fuel always
suffices because every iteration draws exactly one card. -/
def refillHand (deck hand : List Card) : List Card × List Card :=
  refillHandF deck.length deck hand

/-- Refill of one seat: skip an out player, otherwise draw up to 6;
indices out of range (never produced by rotatedIdx) are skipped. -/
def refillStep (ps : List Player) (deck : List Card) (i : Nat) : List Player × List Card :=
  match ps[i]? with
  | none => (ps, deck)
  | some p =>
    if p.is_out then (ps, deck)
    else
      let r := refillHand deck p.hand
      (ps.set i { p with hand := r.2 }, r.1)

/-- Refill every seat in the given index order. -/
def refillPlayers : List Player → List Card → List Nat → List Player × List Card
  | ps, deck, [] => (ps, deck)
  | ps, deck, i :: rest =>
    let r := refillStep ps deck i
    refillPlayers r.1 r.2 rest

/-- Mark players with an empty hand as out when the deck is empty,
collecting the newly out uids in seat order for winner_order. -/
def markOut : List Player → Bool → List Player × List Nat
  | [], _ => ([], [])
  | p :: ps, deckEmpty =>
    let (ps', ws) := markOut ps deckEmpty
    if ¬p.is_out ∧ p.hand = [] ∧ deckEmpty then
      ({ p with is_out := true } :: ps', p.uid :: ws)
    else (p :: ps', ws)

/-- Whether seat i exists and is not out (membership of i in the active
index list of the source). -/
def activeAt (ps : List Player) (i : Nat) : Bool :=
  match ps[i]? with
  | some p => !p.is_out
  | none => false

/-- Fuelled model of the index-search while loops of _next_turn: advance
cur by +1 mod n until P holds. The source loops are reached only with
at least one satisfying index, where n steps of fuel suffice (proved in
scanIdx_finds below); on exhausted fuel the current index is returned. -/
def scanIdx (P : Nat → Bool) (n : Nat) : Nat → Nat → Nat
  | cur, 0 => cur
  | cur, fuel + 1 => if P cur then cur else scanIdx P n ((cur + 1) % n) fuel

/-- Refill pass of _next_turn: players and remaining deck after every
seat, visited clockwise from the attacker, drew up to 6 cards. -/
def refilled (g : DurakGame) (deck : List Card) : List Player × List Card :=
  refillPlayers g.players deck (rotatedIdx g.attacker_idx g.players.length)

/-- Win check of _next_turn: players after marking empty-handed seats
out (deck exhausted), with the newly out uids in seat order. -/
def marked (g : DurakGame) (deck : List Card) : List Player × List Nat :=
  markOut (refilled g deck).1 (refilled g deck).2.isEmpty

/-- New attacker computed by _next_turn over the post-refill players:
after a pickup the seat after the defender, otherwise the defender
unless the defender went out. -/
def newAttackerIdx (g : DurakGame) (ps2 : List Player) (dp : Bool) : Nat :=
  let n := g.players.length
  if dp then scanIdx (fun i => activeAt ps2 i) n ((g.defender_idx + 1) % n) n
  else if activeAt ps2 g.defender_idx then g.defender_idx
  else scanIdx (fun i => activeAt ps2 i) n ((g.defender_idx + 1) % n) n

/-- New defender computed by _next_turn: next active seat after the new
attacker, the attacker itself excluded. -/
def newDefenderIdx (g : DurakGame) (ps2 : List Player) (attIdx : Nat) : Nat :=
  let n := g.players.length
  scanIdx (fun i => activeAt ps2 i && decide (i ≠ attIdx)) n ((attIdx + 1) % n) n

/-- _next_turn: refill from the attacker clockwise, mark newly out
players, finish below 2 active seats, otherwise rotate the roles and
clear the table. Accessing the cards of a deck that is still None
raises (AttributeError in Python, modelled as typeError). -/
def nextTurn (g : DurakGame) (defender_picked : Bool) : Except PyErr DurakGame :=
  if g.players.all (fun p => p.is_out) then .ok { g with state := "finished" }
  else
    match g.deck with
    | none => .error .typeError
    | some deck =>
      let ps2 := (marked g deck).1
      let deck1 := (refilled g deck).2
      let worder := g.winner_order ++ (marked g deck).2
      if (ps2.filter (fun p => !p.is_out)).length < 2 then
        .ok { g with
          players := ps2, deck := some deck1, winner_order := worder, state := "finished" }
      else
        let attIdx := newAttackerIdx g ps2 defender_picked
        .ok { g with
          players := ps2
          deck := some deck1
          winner_order := worder
          attacker_idx := attIdx
          defender_idx := newDefenderIdx g ps2 attIdx
          table := []
          turn_state := "attack"
          pass_count := 0 }

/-- action_take: the defender picks up every card on the table, then the
trick ends with defender_picked = true. -/
def action_take (g : DurakGame) (uid : Nat) : Except PyErr DurakGame := do
  let defender ← pyIdx g.players g.defender_idx
  if defender.uid ≠ uid then .ok g
  else
    nextTurn
      { g with
        players := g.players.set g.defender_idx
          { defender with hand := defender.hand ++ tableCards g.table } }
      true

/-- action_pass: the main attacker ends a trick with no unbeaten pair
left; anyone else (defender included) is a no-op. -/
def action_pass (g : DurakGame) (uid : Nat) : Except PyErr DurakGame := do
  let defender ← pyIdx g.players g.defender_idx
  if uid = defender.uid then .ok g
  else if g.table.any (fun pr => pr.2 = none) then .ok g
  else do
    let attacker ← pyIdx g.players g.attacker_idx
    if uid = attacker.uid then nextTurn g false
    else .ok g

/-- action_transfer (perevodnoy only): the defender adds a matching-rank
card and passes the trick to the literal next seat, which must hold at
least table+1 cards; the source does not skip seats that are out. -/
def action_transfer (g : DurakGame) (uid : Nat) (card_dict : Option CardDict) :
    Except PyErr DurakGame :=
  if g.settings.mode ≠ some "perevodnoy" then .ok g
  else do
    let defender ← pyIdx g.players g.defender_idx
    if defender.uid ≠ uid then .ok g
    else if g.table.any (fun pr => pr.2 ≠ none) then .ok g
    else do
      let card ← cardFromDict card_dict
      if g.table = [] then .ok g
      else do
        let first ← pyIdx g.table 0
        if first.1.rank ≠ card.rank then .ok g
        else if ¬ handHas defender.hand card then .ok g
        else
          let next_p_idx := (g.defender_idx + 1) % g.players.length
          do
            let next_p ← pyIdx g.players next_p_idx
            if next_p.hand.length < g.table.length + 1 then .ok g
            else
              .ok { g with
                players := g.players.set g.defender_idx
                  { defender with hand := removeCard defender.hand card }
                table := g.table ++ [(card, none)]
                attacker_idx := g.defender_idx
                defender_idx := next_p_idx }

/-! Room/connection manager (durak_manager.py). The economy gateway is
external: get_balance is passed as a function, add_points calls are
logged in order as EconCall records. WebSocket traffic is out of scope;
broadcast_state does not change manager or game state. -/

/-- JOIN_COST of durak_manager. -/
def JOIN_COST : Int := 30

/-- WIN_REWARD of durak_manager. -/
def WIN_REWARD : Int := 100

/-- One add_points call made by the manager. -/
structure EconCall where
  uid : Nat
  delta : Int
  tag : String
deriving DecidableEq, Repr

/-- The manager state: room registry, connection registry (uids of the
registered sockets), active-room map and the gateway call log. -/
structure ManagerState where
  rooms : List (String × DurakGame) := []
  connections : List (String × List Nat) := []
  user_room_map : List (Nat × String) := []
  calls : List EconCall := []
deriving DecidableEq, Repr

/-- Dictionary read self.rooms.get(room_id). -/
def lookupRoom (m : ManagerState) (room_id : String) : Option DurakGame :=
  (m.rooms.find? (fun kv => kv.1 == room_id)).map (fun kv => kv.2)

/-- Dictionary write self.rooms[room_id] = game (in the source the game
object is mutated in place; here the registry entry is replaced). -/
def setRoom (rooms : List (String × DurakGame)) (room_id : String) (g : DurakGame) :
    List (String × DurakGame) :=
  rooms.map (fun kv => if kv.1 = room_id then (kv.1, g) else kv)

/-- Dictionary write self.user_room_map[uid] = room_id. -/
def mapSetUserRoom (l : List (Nat × String)) (uid : Nat) (room_id : String) :
    List (Nat × String) :=
  l.filter (fun kv => kv.1 ≠ uid) ++ [(uid, room_id)]

/-- create_room: reject with no mutation when the balance is below
JOIN_COST; otherwise debit, build a waiting game seeded with the
creator, register an empty connection list and the active room. The
fresh room id (uuid in the source) is a parameter. -/
def create_room (m : ManagerState) (bal : Nat → Int) (uid : Nat) (name : String)
    (settings : GameSettings) (room_id : String) (now : Nat) :
    Option String × ManagerState :=
  if bal uid < JOIN_COST then (none, m)
  else
    let game0 : DurakGame := { room_id := room_id, settings := settings }
    let game := (add_player game0 uid name now).2
    (some room_id,
      { m with
        rooms := m.rooms ++ [(room_id, game)]
        connections := m.connections ++ [(room_id, [])]
        user_room_map := mapSetUserRoom m.user_room_map uid room_id
        calls := m.calls ++ [⟨uid, -JOIN_COST, "durak_create"⟩] })

/-- join_room: unknown room rejects; an already seated uid reconnects
with no debit and no mutation; otherwise the balance is checked, the
seat added through add_player and JOIN_COST debited on success. -/
def join_room (m : ManagerState) (bal : Nat → Int) (uid : Nat) (name : String)
    (room_id : String) (now : Nat) : Bool × ManagerState :=
  match lookupRoom m room_id with
  | none => (false, m)
  | some game =>
    if game.players.any (fun p => p.uid == uid) then (true, m)
    else if bal uid < JOIN_COST then (false, m)
    else
      let (added, game') := add_player game uid name now
      if added then
        (true,
          { m with
            rooms := setRoom m.rooms room_id game'
            user_room_map := mapSetUserRoom m.user_room_map uid room_id
            calls := m.calls ++ [⟨uid, -JOIN_COST, "durak_join"⟩] })
      else (false, m)

/-- The loser detected by process_win: the single non-out seated player
when exactly one remains, otherwise none. -/
def loserUid (g : DurakGame) : Option Nat :=
  match g.players.filter (fun p => !p.is_out) with
  | [p] => some p.uid
  | _ => none

/-- The add_points calls process_win makes: WIN_REWARD to every seated
player whose uid differs from the loser uid (a None loser matches no
uid, so everyone is credited). -/
def process_win_calls (g : DurakGame) : List EconCall :=
  (g.players.filter (fun p => some p.uid ≠ loserUid g)).map
    (fun p => ⟨p.uid, WIN_REWARD, "durak_win"⟩)

/-! Card counting for the conservation claims. -/

/-- Weight of one table pair in the conservation formula: 2 when
defended, 1 when unbeaten. -/
def pairWeight : Card × Option Card → Nat
  | (_, some _) => 2
  | (_, none) => 1

/-- Total cards lying on the table. -/
def tableWeight (t : List (Card × Option Card)) : Nat :=
  (t.map pairWeight).sum

/-- Sum of all hand sizes. -/
def handSum (ps : List Player) : Nat :=
  (ps.map (fun p => p.hand.length)).sum

/-- The conserved quantity of the spec: deck size plus all hand sizes
plus 2 per defended pair plus 1 per unbeaten pair. -/
def cardCount (g : DurakGame) : Nat :=
  (match g.deck with | some d => d.length | none => 0) + handSum g.players + tableWeight g.table

/-- Seat j is the first active seat strictly after seat i, clockwise:
the spec-side reading of the next-player search of _next_turn. -/
def NextActiveAfter (ps : List Player) (i j : Nat) : Prop :=
  ∃ k, k < ps.length ∧ j = (i + 1 + k) % ps.length ∧ activeAt ps j = true ∧
    ∀ m, m < k → activeAt ps ((i + 1 + m) % ps.length) = false

/-- Seat j is the first active seat strictly after seat a that is not a
itself: the spec-side reading of the new-defender search. -/
def NextActiveOtherAfter (ps : List Player) (a j : Nat) : Prop :=
  ∃ k, k < ps.length ∧ j = (a + 1 + k) % ps.length ∧ activeAt ps j = true ∧ j ≠ a ∧
    ∀ m, m < k → activeAt ps ((a + 1 + m) % ps.length) = false

/-! Spec-side predicates and concrete games used to instantiate the
theorems. -/

/-- The beats rule as the spec words it: same suit and strictly higher
rank, or the defend card is trump while the attack card is not. -/
def beatsSpec (trump : Option String) (atk dfn : Card) : Prop :=
  (dfn.suit = atk.suit ∧ rankValueT atk.rank < rankValueT dfn.rank) ∨
  (some dfn.suit = trump ∧ some atk.suit ≠ trump)

instance (trump : Option String) (atk dfn : Card) : Decidable (beatsSpec trump atk dfn) :=
  inferInstanceAs (Decidable
    ((dfn.suit = atk.suit ∧ rankValueT atk.rank < rankValueT dfn.rank) ∨
     (some dfn.suit = trump ∧ some atk.suit ≠ trump)))

/-- A freshly created 2-player podkidnoy room. -/
def demoRoom : DurakGame :=
  { room_id := "r1", settings := { size := some 36, mode := some "podkidnoy" },
    players := [{ uid := 1, name := "ann" }, { uid := 2, name := "bob" }] }

/-- The demo room dealt from the unshuffled 36-card deck (trump 6H; the
spade and club courts end up in the two hands). -/
def demoG1 : DurakGame := start_game demoRoom (buildDeck 36)

/-- Player 1 opens with the 8 of spades. -/
def demoG2 : DurakGame :=
  (action_attack demoG1 1 (some { rank := some "8", suit := some "S" })).toOption.getD demoG1

/-- Player 2 covers with the 9 of spades. -/
def demoG3 : DurakGame :=
  (action_defend demoG2 2 (some 0) (some { rank := some "9", suit := some "S" })).toOption.getD demoG2

/-- Player 1 passes, ending the fully beaten trick. -/
def demoG4 : DurakGame := (action_pass demoG3 1).toOption.getD demoG3

/-- Player 2 takes the table instead (from the one-attack position). -/
def demoTake : DurakGame := (action_take demoG2 2).toOption.getD demoG2

/-- A perevodnoy position after seat 1 went out on an earlier trick
(deck exhausted): seat 2 attacks seat 0 with the 8 of spades and the
defender holds a matching 8; the next seat clockwise is the out,
empty-handed seat 1, while the next active seat (2) holds five cards. -/
def perevodG : DurakGame :=
  { room_id := "r2", settings := { size := some 36, mode := some "perevodnoy" },
    players :=
      [ { uid := 10, name := "dina",
          hand := [⟨"8", "C"⟩, ⟨"7", "D"⟩, ⟨"K", "H"⟩, ⟨"9", "H"⟩] },
        { uid := 11, name := "eve", hand := [], is_out := true },
        { uid := 12, name := "fred",
          hand := [⟨"6", "H"⟩, ⟨"9", "D"⟩, ⟨"T", "C"⟩, ⟨"J", "C"⟩, ⟨"Q", "D"⟩] } ],
    deck := some [],
    trump_card := some ⟨"6", "H"⟩,
    trump_suit := some "H",
    table := [(⟨"8", "S"⟩, none)],
    attacker_idx := 2, defender_idx := 0,
    state := "playing", turn_state := "defend",
    winner_order := [11] }

/-- A 2-player perevodnoy position where the defender can transfer: the
next seat is the attacker holding five cards. -/
def perevodOkG : DurakGame :=
  { room_id := "r3", settings := { size := some 36, mode := some "perevodnoy" },
    players :=
      [ { uid := 20, name := "gil",
          hand := [⟨"A", "S"⟩, ⟨"Q", "S"⟩, ⟨"T", "S"⟩, ⟨"6", "S"⟩, ⟨"K", "C"⟩] },
        { uid := 21, name := "hana",
          hand := [⟨"8", "C"⟩, ⟨"K", "S"⟩, ⟨"J", "S"⟩, ⟨"9", "S"⟩, ⟨"7", "S"⟩, ⟨"A", "C"⟩] } ],
    deck := some ((buildDeck 36).take 24),
    trump_card := some ⟨"6", "H"⟩,
    trump_suit := some "H",
    table := [(⟨"8", "S"⟩, none)],
    attacker_idx := 0, defender_idx := 1,
    state := "playing", turn_state := "defend" }

/-! Helper lemmas about the embedding. -/

theorem exbind_ok {α β : Type} (a : α) (f : α → Except PyErr β) :
    (Except.ok a >>= f) = f a := rfl

theorem exbind_err {α β : Type} (e : PyErr) (f : α → Except PyErr β) :
    ((Except.error e : Except PyErr α) >>= f) = .error e := rfl

theorem pyIdx_ok {α : Type} {l : List α} {i : Nat} {x : α} (h : l[i]? = some x) :
    pyIdx l i = .ok x := by
  simp [pyIdx, h]

theorem pyIdx_ok_iff {α : Type} {l : List α} {i : Nat} {x : α} :
    pyIdx l i = .ok x ↔ l[i]? = some x := by
  unfold pyIdx
  cases h : l[i]? <;> simp_all

theorem refillHandF_conserve (fuel : Nat) : ∀ (deck hand : List Card),
    (refillHandF fuel deck hand).1.length + (refillHandF fuel deck hand).2.length
      = deck.length + hand.length := by
  induction fuel with
  | zero => intro deck hand; rfl
  | succ n ih =>
    intro deck hand
    rw [refillHandF]
    split
    · cases hd : deck.getLast? with
      | none => rfl
      | some c =>
        have hne : deck ≠ [] := by rintro rfl; simp at hd
        have hpos : 0 < deck.length := List.length_pos.mpr hne
        rw [ih]
        simp [List.length_dropLast]
        omega
    · rfl

theorem refillHand_conserve (deck hand : List Card) :
    (refillHand deck hand).1.length + (refillHand deck hand).2.length
      = deck.length + hand.length :=
  refillHandF_conserve deck.length deck hand

theorem handSum_cons (p : Player) (ps : List Player) :
    handSum (p :: ps) = p.hand.length + handSum ps := by
  simp [handSum]

theorem handSum_set : ∀ (ps : List Player) (i : Nat) (p q : Player),
    ps[i]? = some p →
    handSum (ps.set i q) + p.hand.length = handSum ps + q.hand.length := by
  intro ps
  induction ps with
  | nil => intro i p q h; simp at h
  | cons a as ih =>
    intro i p q h
    cases i with
    | zero =>
      simp at h
      subst h
      simp [handSum_cons, List.set]
      omega
    | succ j =>
      simp at h
      have := ih j p q h
      simp [handSum_cons, List.set]
      omega

theorem markOut_handSum (ps : List Player) (de : Bool) :
    handSum (markOut ps de).1 = handSum ps := by
  induction ps with
  | nil => simp [markOut, handSum]
  | cons a as ih =>
    rw [markOut]
    split
    rename_i ps' ws heq
    rw [heq] at ih
    simp at ih
    split <;> simp [handSum_cons, ih]

theorem markOut_length (ps : List Player) (de : Bool) :
    (markOut ps de).1.length = ps.length := by
  induction ps with
  | nil => simp [markOut]
  | cons a as ih =>
    rw [markOut]
    split
    rename_i ps' ws heq
    rw [heq] at ih
    simp at ih
    split <;> simp [ih]

theorem refillStep_conserve (ps : List Player) (deck : List Card) (i : Nat) :
    handSum (refillStep ps deck i).1 + (refillStep ps deck i).2.length
      = handSum ps + deck.length := by
  unfold refillStep
  split
  · rfl
  · rename_i p heq
    split
    · rfl
    · have hc := refillHand_conserve deck p.hand
      have hs := handSum_set ps i p { p with hand := (refillHand deck p.hand).2 } heq
      simp at hs ⊢
      omega

theorem refillStep_length (ps : List Player) (deck : List Card) (i : Nat) :
    (refillStep ps deck i).1.length = ps.length := by
  unfold refillStep
  split
  · rfl
  · rename_i p heq
    split
    · rfl
    · simp

theorem refillPlayers_conserve : ∀ (idxs : List Nat) (ps : List Player) (deck : List Card),
    handSum (refillPlayers ps deck idxs).1 + (refillPlayers ps deck idxs).2.length
      = handSum ps + deck.length := by
  intro idxs
  induction idxs with
  | nil => intro ps deck; rfl
  | cons i rest ih =>
    intro ps deck
    rw [refillPlayers]
    rw [ih]
    exact refillStep_conserve ps deck i

theorem refillPlayers_length : ∀ (idxs : List Nat) (ps : List Player) (deck : List Card),
    (refillPlayers ps deck idxs).1.length = ps.length := by
  intro idxs
  induction idxs with
  | nil => intro ps deck; rfl
  | cons i rest ih =>
    intro ps deck
    rw [refillPlayers]
    rw [ih]
    exact refillStep_length ps deck i

theorem tableCards_length : ∀ (t : List (Card × Option Card)),
    (tableCards t).length = tableWeight t := by
  intro t
  induction t with
  | nil => rfl
  | cons pr rest ih =>
    cases pr with
    | mk a d =>
      cases d <;> simp [tableCards, tableWeight, pairWeight] at * <;> omega

theorem tableWeight_append_none (t : List (Card × Option Card)) (c : Card) :
    tableWeight (t ++ [(c, none)]) = tableWeight t + 1 := by
  simp [tableWeight, pairWeight]

theorem tableWeight_set : ∀ (t : List (Card × Option Card)) (i : Nat) (a : Card) (d : Card),
    t[i]? = some (a, none) →
    tableWeight (t.set i (a, some d)) = tableWeight t + 1 := by
  intro t
  induction t with
  | nil => intro i a d h; simp at h
  | cons pr rest ih =>
    intro i a d h
    cases i with
    | zero =>
      simp at h
      subst h
      simp [tableWeight, pairWeight, List.set]
      omega
    | succ j =>
      simp at h
      have := ih j a d h
      simp [tableWeight, List.set] at *
      omega

theorem tableWeight_all_beaten : ∀ (t : List (Card × Option Card)),
    (∀ x : Card, (x, (none : Option Card)) ∉ t) → tableWeight t = 2 * t.length := by
  intro t
  induction t with
  | nil => intro _; rfl
  | cons pr rest ih =>
    intro h
    cases pr with
    | mk a d =>
      cases d with
      | none => exact absurd (List.mem_cons_self _ _) (h a)
      | some c =>
        have := ih (fun x hmem => h x (List.mem_cons_of_mem _ hmem))
        simp [tableWeight, pairWeight] at *
        omega

theorem removeCard_length : ∀ (hand : List Card) (c : Card),
    hand.Nodup → handHas hand c = true →
    (removeCard hand c).length + 1 = hand.length := by
  intro hand c
  induction hand with
  | nil => intro _ hh; simp [handHas] at hh
  | cons x xs ih =>
    intro hnd hh
    have hnd' := hnd.of_cons
    by_cases hx : x = c
    · subst hx
      have hnotin : x ∉ xs := (List.nodup_cons.mp hnd).1
      have : removeCard (x :: xs) x = xs.filter (fun y => ¬(y.rank = x.rank ∧ y.suit = x.suit)) := by
        simp [removeCard]
      rw [this]
      have hall : xs.filter (fun y => ¬(y.rank = x.rank ∧ y.suit = x.suit)) = xs := by
        apply List.filter_eq_self.mpr
        intro y hy
        have hyx : y ≠ x := fun he => hnotin (he ▸ hy)
        simp
        by_contra hcon
        push_neg at hcon
        exact hyx (by cases y; cases x; simp_all)
      rw [hall]
      simp
    · have hxne : ¬(x.rank = c.rank ∧ x.suit = c.suit) := by
        intro ⟨hr, hs⟩; exact hx (by cases x; cases c; simp_all)
      have hh' : handHas xs c = true := by
        simp [handHas] at hh ⊢
        rcases hh with ⟨hr, hs⟩ | h
        · exact absurd ⟨hr, hs⟩ hxne
        · exact h
      have hcons : removeCard (x :: xs) c = x :: removeCard xs c := by
        unfold removeCard
        rw [List.filter_cons_of_pos]
        simp [hxne]
      have := ih hnd' hh'
      rw [hcons]
      simp
      omega

theorem marked_handSum (g : DurakGame) (deck : List Card) :
    handSum (marked g deck).1 + (refilled g deck).2.length
      = handSum g.players + deck.length := by
  unfold marked
  rw [markOut_handSum]
  unfold refilled
  exact refillPlayers_conserve _ _ _

theorem marked_length (g : DurakGame) (deck : List Card) :
    (marked g deck).1.length = g.players.length := by
  unfold marked
  rw [markOut_length]
  unfold refilled
  exact refillPlayers_length _ _ _

/-- Card-count bookkeeping of one _next_turn call: either the trick
really ended (table cleared, the cards that lay on the table are gone
from the total), or the game finished with the table left in place and
the total unchanged. -/
theorem nextTurn_cardCount (g : DurakGame) (dp : Bool) (g' : DurakGame)
    (h : nextTurn g dp = .ok g') :
    (g'.table = [] ∧ cardCount g' + tableWeight g.table = cardCount g) ∨
    (g'.table = g.table ∧ g'.state = "finished" ∧ cardCount g' = cardCount g) := by
  unfold nextTurn at h
  split at h
  · simp at h
    subst h
    right
    simp [cardCount]
  · split at h
    · exact absurd h (by simp)
    · rename_i deck hdeck
      have hcons := marked_handSum g deck
      dsimp only at h
      split at h
      · simp at h
        subst h
        right
        refine ⟨rfl, rfl, ?_⟩
        simp [cardCount, hdeck]
        omega
      · simp at h
        subst h
        left
        refine ⟨rfl, ?_⟩
        simp [cardCount, hdeck, tableWeight]
        omega

theorem action_attack_cardCount (g : DurakGame) (uid : Nat) (cd : Option CardDict)
    (g' : DurakGame) (hnd : ∀ p ∈ g.players, p.hand.Nodup)
    (h : action_attack g uid cd = .ok g') : cardCount g' = cardCount g := by
  unfold action_attack at h
  split at h
  · simp at h; subst h; rfl
  · rename_i p_idx hfind
    split at h
    · simp at h; subst h; rfl
    split at h
    · simp at h; subst h; rfl
    cases hcard : cardFromDict cd with
    | error e => rw [hcard, exbind_err] at h; simp at h
    | ok card =>
      rw [hcard, exbind_ok] at h
      cases hpy : pyIdx g.players p_idx with
      | error e => rw [hpy, exbind_err] at h; simp at h
      | ok p =>
        rw [hpy, exbind_ok] at h
        have hp : g.players[p_idx]? = some p := pyIdx_ok_iff.mp hpy
        have hpmem : p ∈ g.players := List.getElem?_mem hp
        split at h
        · simp at h; subst h; rfl
        split at h
        · simp at h; subst h; rfl
        split at h
        · simp at h; subst h; rfl
        rename_i hhas _ _
        cases hpyd : pyIdx g.players g.defender_idx with
        | error e => rw [hpyd, exbind_err] at h; simp at h
        | ok defender =>
          rw [hpyd, exbind_ok] at h
          split at h
          · simp at h; subst h; rfl
          · simp at h
            subst h
            have hhas' : handHas p.hand card = true := by
              by_contra hc
              exact hhas (by simpa using hc)
            have hrem := removeCard_length p.hand card (hnd p hpmem) hhas'
            have hset := handSum_set g.players p_idx p
              { p with hand := removeCard p.hand card } hp
            simp at hset
            simp [cardCount, tableWeight_append_none]
            omega

theorem action_defend_cardCount (g : DurakGame) (uid : Nat) (ti : Option Int)
    (cd : Option CardDict) (g' : DurakGame) (hnd : ∀ p ∈ g.players, p.hand.Nodup)
    (h : action_defend g uid ti cd = .ok g') : cardCount g' = cardCount g := by
  unfold action_defend at h
  cases hpy : pyIdx g.players g.defender_idx with
  | error e => rw [hpy, exbind_err] at h; simp at h
  | ok defender =>
    rw [hpy, exbind_ok] at h
    have hdefp : g.players[g.defender_idx]? = some defender := pyIdx_ok_iff.mp hpy
    have hdmem : defender ∈ g.players := List.getElem?_mem hdefp
    split at h
    · simp at h; subst h; rfl
    dsimp only at h
    split at h
    · rw [exbind_err] at h; simp at h
    rename_i idx
    rw [exbind_ok] at h
    · split at h
      · simp at h; subst h; rfl
      cases hpt : pyIdx g.table idx.toNat with
      | error e => rw [hpt, exbind_err] at h; simp at h
      | ok pair =>
        rw [hpt, exbind_ok] at h
        have htab : g.table[idx.toNat]? = some pair := pyIdx_ok_iff.mp hpt
        split at h
        · simp at h; subst h; rfl
        rename_i hbeaten
        cases hcard : cardFromDict cd with
        | error e => rw [hcard, exbind_err] at h; simp at h
        | ok def_card =>
          rw [hcard, exbind_ok] at h
          split at h
          · simp at h; subst h; rfl
          rename_i hhas
          have hfinal : cardCount { g with
              players := g.players.set g.defender_idx
                { defender with hand := removeCard defender.hand def_card }
              table := g.table.set idx.toNat (pair.1, some def_card) } = cardCount g := by
            have hhas' : handHas defender.hand def_card = true := by
              by_contra hc
              exact hhas (by simpa using hc)
            have hrem := removeCard_length defender.hand def_card (hnd defender hdmem) hhas'
            have hset := handSum_set g.players g.defender_idx defender
              { defender with hand := removeCard defender.hand def_card } hdefp
            simp at hset
            have hnone : pair.2 = none := by simpa using hbeaten
            have hpair : pair = (pair.1, none) := by
              cases pair with
              | mk a b => simp at hnone; subst hnone; rfl
            have htw : tableWeight (g.table.set idx.toNat (pair.1, some def_card))
                = tableWeight g.table + 1 := by
              apply tableWeight_set
              rw [← hpair]
              exact htab
            simp [cardCount, htw]
            omega
          split at h
          · cases hrv1 : rank_value def_card.rank with
            | error e => rw [hrv1, exbind_err] at h; simp at h
            | ok dv =>
              rw [hrv1, exbind_ok] at h
              cases hrv2 : rank_value pair.1.rank with
              | error e => rw [hrv2, exbind_err] at h; simp at h
              | ok av =>
                rw [hrv2, exbind_ok, exbind_ok] at h
                split at h
                · simp at h; subst h; rfl
                · simp at h; subst h; exact hfinal
          · rw [exbind_ok] at h
            split at h
            · simp at h; subst h; rfl
            · simp at h; subst h; exact hfinal

theorem action_transfer_cardCount (g : DurakGame) (uid : Nat) (cd : Option CardDict)
    (g' : DurakGame) (hnd : ∀ p ∈ g.players, p.hand.Nodup)
    (h : action_transfer g uid cd = .ok g') : cardCount g' = cardCount g := by
  unfold action_transfer at h
  split at h
  · simp at h; subst h; rfl
  cases hpy : pyIdx g.players g.defender_idx with
  | error e => rw [hpy, exbind_err] at h; simp at h
  | ok defender =>
    rw [hpy, exbind_ok] at h
    have hdefp : g.players[g.defender_idx]? = some defender := pyIdx_ok_iff.mp hpy
    have hdmem : defender ∈ g.players := List.getElem?_mem hdefp
    split at h
    · simp at h; subst h; rfl
    split at h
    · simp at h; subst h; rfl
    cases hcard : cardFromDict cd with
    | error e => rw [hcard, exbind_err] at h; simp at h
    | ok card =>
      rw [hcard, exbind_ok] at h
      split at h
      · simp at h; subst h; rfl
      cases hpt : pyIdx g.table 0 with
      | error e => rw [hpt, exbind_err] at h; simp at h
      | ok first =>
        rw [hpt, exbind_ok] at h
        split at h
        · simp at h; subst h; rfl
        split at h
        · simp at h; subst h; rfl
        rename_i hhas
        dsimp only at h
        cases hpn : pyIdx g.players ((g.defender_idx + 1) % g.players.length) with
        | error e => rw [hpn, exbind_err] at h; simp at h
        | ok next_p =>
          rw [hpn, exbind_ok] at h
          split at h
          · simp at h; subst h; rfl
          · simp at h
            subst h
            have hhas' : handHas defender.hand card = true := by
              by_contra hc
              exact hhas (by simpa using hc)
            have hrem := removeCard_length defender.hand card (hnd defender hdmem) hhas'
            have hset := handSum_set g.players g.defender_idx defender
              { defender with hand := removeCard defender.hand card } hdefp
            simp at hset
            simp [cardCount, tableWeight_append_none]
            omega

theorem action_take_cardCount (g : DurakGame) (uid : Nat) (g' : DurakGame)
    (h : action_take g uid = .ok g') :
    cardCount g' = cardCount g ∨
    (g'.table = g.table ∧ g'.state = "finished" ∧
      cardCount g' = cardCount g + tableWeight g.table) := by
  unfold action_take at h
  cases hpy : pyIdx g.players g.defender_idx with
  | error e => rw [hpy, exbind_err] at h; simp at h
  | ok defender =>
    rw [hpy, exbind_ok] at h
    have hdefp : g.players[g.defender_idx]? = some defender := pyIdx_ok_iff.mp hpy
    split at h
    · simp at h; subst h; left; rfl
    · have hset := handSum_set g.players g.defender_idx defender
        { defender with hand := defender.hand ++ tableCards g.table } hdefp
      simp [tableCards_length] at hset
      have hnt := nextTurn_cardCount _ _ _ h
      simp [cardCount] at hnt ⊢
      rcases hnt with ⟨ht, hc⟩ | ⟨ht, hs, hc⟩
      · left
        cases hd : g.deck <;> simp [hd] at hc ⊢ <;> omega
      · right
        refine ⟨ht, hs, ?_⟩
        cases hd : g.deck <;> simp [hd] at hc ⊢ <;> omega

theorem action_pass_cardCount (g : DurakGame) (uid : Nat) (g' : DurakGame)
    (h : action_pass g uid = .ok g') :
    cardCount g' = cardCount g ∨
    (g'.table = [] ∧ cardCount g' + 2 * g.table.length = cardCount g) := by
  unfold action_pass at h
  cases hpy : pyIdx g.players g.defender_idx with
  | error e => rw [hpy, exbind_err] at h; simp at h
  | ok defender =>
    rw [hpy, exbind_ok] at h
    split at h
    · simp at h; subst h; left; rfl
    split at h
    · simp at h; subst h; left; rfl
    rename_i hbeat
    cases hpa : pyIdx g.players g.attacker_idx with
    | error e => rw [hpa, exbind_err] at h; simp at h
    | ok attacker =>
      rw [hpa, exbind_ok] at h
      split at h
      · have hnt := nextTurn_cardCount _ _ _ h
        rcases hnt with ⟨ht, hc⟩ | ⟨_, _, hc⟩
        · right
          have hw : tableWeight g.table = 2 * g.table.length :=
            tableWeight_all_beaten g.table (by simpa using hbeat)
          refine ⟨ht, ?_⟩
          omega
        · left; exact hc
      · simp at h; subst h; left; rfl

/-! Characterization of the role-rotation index scans. -/

theorem scanIdx_spec (P : Nat → Bool) (n : Nat) (hn : 0 < n) :
    ∀ (fuel cur : Nat), cur < n →
    (∃ k, k < fuel ∧ P ((cur + k) % n) = true) →
    ∃ k, k < fuel ∧ scanIdx P n cur fuel = (cur + k) % n ∧ P ((cur + k) % n) = true ∧
      ∀ m, m < k → P ((cur + m) % n) = false := by
  intro fuel
  induction fuel with
  | zero =>
    intro cur hcur hex
    obtain ⟨k, hk, _⟩ := hex
    omega
  | succ f ih =>
    intro cur hcur hex
    obtain ⟨k, hk, hPk⟩ := hex
    rw [scanIdx]
    by_cases hP : P cur = true
    · refine ⟨0, by omega, ?_, ?_, by omega⟩
      · simp [hP, Nat.mod_eq_of_lt hcur]
      · simpa [Nat.mod_eq_of_lt hcur] using hP
    · have hkpos : k ≠ 0 := by
        intro h0
        subst h0
        rw [Nat.add_zero, Nat.mod_eq_of_lt hcur] at hPk
        exact hP hPk
      obtain ⟨k', rfl⟩ : ∃ k', k = k' + 1 := ⟨k - 1, by omega⟩
      have hex' : ∃ j, j < f ∧ P (((cur + 1) % n + j) % n) = true := by
        refine ⟨k', by omega, ?_⟩
        rw [Nat.mod_add_mod]
        have harr : cur + 1 + k' = cur + (k' + 1) := by omega
        rw [harr]
        exact hPk
      have hcur' : (cur + 1) % n < n := Nat.mod_lt _ hn
      obtain ⟨j, hj, heq, hPj, hmin⟩ := ih ((cur + 1) % n) hcur' hex'
      have harr : ∀ m : Nat, ((cur + 1) % n + m) % n = (cur + (m + 1)) % n := by
        intro m
        rw [Nat.mod_add_mod]
        congr 1
        omega
      refine ⟨j + 1, by omega, ?_, ?_, ?_⟩
      · rw [if_neg hP, heq, harr]
      · rw [← harr]
        exact hPj
      · intro m hm
        cases m with
        | zero =>
          rw [Nat.add_zero, Nat.mod_eq_of_lt hcur]
          simpa using hP
        | succ m' =>
          have := hmin m' (by omega)
          rw [harr] at this
          exact this

theorem exists_shift (n i s : Nat) (hn : 0 < n) (hi : i < n) (hs : s < n) :
    ∃ k, k < n ∧ (s + k) % n = i := by
  refine ⟨(i + n - s) % n, Nat.mod_lt _ hn, ?_⟩
  rw [Nat.add_mod_mod]
  have harr : s + (i + n - s) = i + n := by omega
  rw [harr, Nat.add_mod_right, Nat.mod_eq_of_lt hi]

theorem add_mod_ne (n a t : Nat) (_ha : a < n) (ht1 : 1 ≤ t) (ht2 : t < n) :
    (a + t) % n ≠ a := by
  intro hmod
  have hdm := Nat.div_add_mod (a + t) n
  rw [hmod] at hdm
  have ht : t = n * ((a + t) / n) := by omega
  cases hq : (a + t) / n with
  | zero => rw [hq] at ht; simp at ht; omega
  | succ q' =>
    rw [hq] at ht
    have hle : n ≤ n * (q' + 1) := Nat.le_mul_of_pos_right n (Nat.succ_pos q')
    omega

theorem activeAt_iff (ps : List Player) (i : Nat) :
    activeAt ps i = true ↔ ∃ p, ps[i]? = some p ∧ p.is_out = false := by
  unfold activeAt
  cases h : ps[i]? <;> simp

theorem exists_idx_of_filter_pos (q : Player → Bool) :
    ∀ (ps : List Player), 0 < (ps.filter q).length →
    ∃ i p, i < ps.length ∧ ps[i]? = some p ∧ q p = true := by
  intro ps
  induction ps with
  | nil => simp
  | cons a as ih =>
    intro h
    by_cases hq : q a = true
    · exact ⟨0, a, by simp, by simp, hq⟩
    · rw [List.filter_cons_of_neg (by simpa using hq)] at h
      obtain ⟨i, p, hi, hp, hqp⟩ := ih h
      exact ⟨i + 1, p, by simpa using hi, by simpa using hp, hqp⟩

theorem exists_two_idx_of_filter (q : Player → Bool) :
    ∀ (ps : List Player), 2 ≤ (ps.filter q).length →
    ∃ i j pi pj, i < j ∧ j < ps.length ∧
      ps[i]? = some pi ∧ q pi = true ∧ ps[j]? = some pj ∧ q pj = true := by
  intro ps
  induction ps with
  | nil => simp
  | cons a as ih =>
    intro h
    by_cases hq : q a = true
    · rw [List.filter_cons_of_pos hq] at h
      simp at h
      obtain ⟨j, p, hj, hp, hqp⟩ := exists_idx_of_filter_pos q as (by omega)
      exact ⟨0, j + 1, a, p, by omega, by simpa using hj, by simp, hq, by simpa using hp, hqp⟩
    · rw [List.filter_cons_of_neg (by simpa using hq)] at h
      obtain ⟨i, j, pi, pj, hij, hj, hpi, hqi, hpj, hqj⟩ := ih h
      exact ⟨i + 1, j + 1, pi, pj, by omega, by simpa using hj,
        by simpa using hpi, hqi, by simpa using hpj, hqj⟩

theorem scan_active_spec (ps : List Player) (n : Nat) (hlen : ps.length = n)
    (hn : 0 < n) (d : Nat)
    (hact : ∃ i, i < n ∧ activeAt ps i = true) :
    NextActiveAfter ps d (scanIdx (fun i => activeAt ps i) n ((d + 1) % n) n) := by
  obtain ⟨i, hi, hia⟩ := hact
  have hs : (d + 1) % n < n := Nat.mod_lt _ hn
  obtain ⟨k0, hk0, hk0eq⟩ := exists_shift n i ((d + 1) % n) hn hi hs
  obtain ⟨k, hk, heq, hPk, hmin⟩ :=
    scanIdx_spec (fun i => activeAt ps i) n hn n ((d + 1) % n) hs
      ⟨k0, hk0, by rw [hk0eq]; exact hia⟩
  have harr : ∀ m : Nat, ((d + 1) % n + m) % n = (d + 1 + m) % n := by
    intro m
    rw [Nat.mod_add_mod]
  refine ⟨k, by omega, ?_, ?_, ?_⟩
  · rw [heq, harr, hlen]
  · rw [heq]
    exact hPk
  · intro m hm
    have := hmin m hm
    rw [harr] at this
    rw [hlen]
    exact this

theorem scan_active_other_spec (ps : List Player) (n : Nat) (hlen : ps.length = n)
    (hn : 0 < n) (a : Nat) (ha : a < n)
    (hact : ∃ i, i < n ∧ activeAt ps i = true ∧ i ≠ a) :
    NextActiveOtherAfter ps a
      (scanIdx (fun i => activeAt ps i && decide (i ≠ a)) n ((a + 1) % n) n) := by
  obtain ⟨i, hi, hia, hine⟩ := hact
  have hs : (a + 1) % n < n := Nat.mod_lt _ hn
  obtain ⟨k0, hk0, hk0eq⟩ := exists_shift n i ((a + 1) % n) hn hi hs
  obtain ⟨k, hk, heq, hPk, hmin⟩ :=
    scanIdx_spec (fun i => activeAt ps i && decide (i ≠ a)) n hn n ((a + 1) % n) hs
      ⟨k0, hk0, by rw [hk0eq]; simp [hia, hine]⟩
  have harr : ∀ m : Nat, ((a + 1) % n + m) % n = (a + 1 + m) % n := by
    intro m
    rw [Nat.mod_add_mod]
  rw [harr] at hPk
  simp at hPk
  refine ⟨k, by omega, ?_, ?_, ?_, ?_⟩
  · rw [heq, harr, hlen]
  · rw [heq, harr]
    exact hPk.1
  · rw [heq, harr]
    exact hPk.2
  · intro m hm
    have hne : (a + 1 + m) % n ≠ a := by
      have harw : a + 1 + m = a + (1 + m) := by omega
      rw [harw]
      exact add_mod_ne n a (1 + m) ha (by omega) (by omega)
    have hPm := hmin m hm
    rw [harr] at hPm
    rw [hlen]
    cases hval : activeAt ps ((a + 1 + m) % n) with
    | false => rfl
    | true =>
      rw [hval] at hPm
      simp at hPm
      exact absurd hPm hne

/-- Role rotation of one non-finishing _next_turn call: the new attacker
follows the old defender (clockwise, skipping out seats) after a pickup
or when the old defender went out, is the old defender itself otherwise,
and the new defender is the next active seat after the new attacker. -/
theorem nextTurn_roles (g : DurakGame) (dp : Bool) (g' : DurakGame)
    (h : nextTurn g dp = .ok g') (hnf : g'.state ≠ "finished")
    (hd : g.defender_idx < g.players.length) :
    g'.players.length = g.players.length ∧
    (dp = true → NextActiveAfter g'.players g.defender_idx g'.attacker_idx) ∧
    (dp = false →
      (activeAt g'.players g.defender_idx = true → g'.attacker_idx = g.defender_idx) ∧
      (activeAt g'.players g.defender_idx = false →
        NextActiveAfter g'.players g.defender_idx g'.attacker_idx)) ∧
    NextActiveOtherAfter g'.players g'.attacker_idx g'.defender_idx := by
  have hn : 0 < g.players.length := by omega
  unfold nextTurn at h
  split at h
  · simp at h
    subst h
    exact absurd rfl hnf
  · split at h
    · simp at h
    · rename_i deck hdeck
      dsimp only at h
      split at h
      · simp at h
        subst h
        exact absurd rfl hnf
      · rename_i hact2
        simp at h
        subst h
        simp only []
        -- facts about the post-refill players
        have hlen : (marked g deck).1.length = g.players.length := marked_length g deck
        have hcnt : 2 ≤ ((marked g deck).1.filter (fun p => !p.is_out)).length := by omega
        have hone : ∃ i, i < g.players.length ∧ activeAt (marked g deck).1 i = true := by
          obtain ⟨i, p, hi, hp, hq⟩ :=
            exists_idx_of_filter_pos (fun p => !p.is_out) (marked g deck).1 (by omega)
          refine ⟨i, by omega, ?_⟩
          rw [activeAt_iff]
          exact ⟨p, hp, by simpa using hq⟩
        have htwo : ∀ a : Nat, ∃ i, i < g.players.length ∧
            activeAt (marked g deck).1 i = true ∧ i ≠ a := by
          intro a
          obtain ⟨i, j, pi, pj, hij, hj, hpi, hqi, hpj, hqj⟩ :=
            exists_two_idx_of_filter (fun p => !p.is_out) (marked g deck).1 hcnt
          by_cases hia : i = a
          · refine ⟨j, by omega, ?_, by omega⟩
            rw [activeAt_iff]
            exact ⟨pj, hpj, by simpa using hqj⟩
          · refine ⟨i, by omega, ?_, hia⟩
            rw [activeAt_iff]
            exact ⟨pi, hpi, by simpa using hqi⟩
        have hattlt : newAttackerIdx g (marked g deck).1 dp < g.players.length := by
          unfold newAttackerIdx
          split
          · obtain ⟨k, _, heq, _, _⟩ :=
              scan_active_spec (marked g deck).1 g.players.length hlen hn
                g.defender_idx hone
            rw [heq, hlen]
            exact Nat.mod_lt _ hn
          · split
            · exact hd
            · obtain ⟨k, _, heq, _, _⟩ :=
                scan_active_spec (marked g deck).1 g.players.length hlen hn
                  g.defender_idx hone
              rw [heq, hlen]
              exact Nat.mod_lt _ hn
        refine ⟨by simpa using hlen, ?_, ?_, ?_⟩
        · intro hdp
          subst hdp
          unfold newAttackerIdx
          simp only [if_pos rfl]
          exact scan_active_spec (marked g deck).1 g.players.length hlen hn
            g.defender_idx hone
        · intro hdp
          subst hdp
          constructor
          · intro hactive
            unfold newAttackerIdx
            simp [hactive]
          · intro hinactive
            unfold newAttackerIdx
            simp [hinactive]
            exact scan_active_spec (marked g deck).1 g.players.length hlen hn
              g.defender_idx hone
        · unfold newDefenderIdx
          exact scan_active_other_spec (marked g deck).1 g.players.length hlen hn
            (newAttackerIdx g (marked g deck).1 dp) hattlt
            (htwo (newAttackerIdx g (marked g deck).1 dp))

/-! Lemmas about the deal and the first-attacker scan. -/

theorem dealRound_length : ∀ (ps : List Player) (deck : List Card),
    (dealRound ps deck).1.length = ps.length := by
  intro ps
  induction ps with
  | nil => intro deck; rfl
  | cons p rest ih =>
    intro deck
    rw [dealRound]
    split
    · rfl
    · rename_i c hc
      cases hr : dealRound rest deck.dropLast with
      | mk ps' deck' =>
        have := ih deck.dropLast
        rw [hr] at this
        simpa using this

theorem dealRounds_length : ∀ (k : Nat) (ps : List Player) (deck : List Card),
    (dealRounds k ps deck).1.length = ps.length := by
  intro k
  induction k with
  | zero => intro ps deck; rfl
  | succ k' ih =>
    intro ps deck
    rw [dealRounds]
    cases hr : dealRound ps deck with
    | mk ps' deck' =>
      have h1 := dealRound_length ps deck
      rw [hr] at h1
      simp at h1
      rw [ih]
      simpa using h1

theorem scanHand_nomatch (trump : Option String) (i : Nat) (acc : Nat × Nat) :
    ∀ (hand : List Card), (∀ c ∈ hand, some c.suit ≠ trump) →
    scanHand trump i acc hand = acc := by
  intro hand
  induction hand generalizing acc with
  | nil => intro _; rfl
  | cons c rest ih =>
    intro h
    rw [scanHand] at *
    simp only [List.foldl_cons]
    rw [if_neg (by
      intro hc
      exact h c (List.mem_cons_self _ _) hc.1)]
    exact ih acc (fun c hc => h c (List.mem_cons_of_mem _ hc))

theorem scanStarter_nomatch : ∀ (ps : List Player) (trump : Option String),
    (∀ p ∈ ps, ∀ c ∈ p.hand, some c.suit ≠ trump) →
    scanStarter ps trump = (100, 0) := by
  have haux : ∀ (ps : List Player) (trump : Option String) (n : Nat) (acc : Nat × Nat),
      (∀ p ∈ ps, ∀ c ∈ p.hand, some c.suit ≠ trump) →
      (ps.enumFrom n).foldl (fun a ip => scanHand trump ip.1 a ip.2.hand) acc = acc := by
    intro ps
    induction ps with
    | nil => intro _ _ _ _; rfl
    | cons p rest ih =>
      intro trump n acc h
      simp only [List.enumFrom, List.foldl_cons]
      rw [scanHand_nomatch trump n acc p.hand (h p (List.mem_cons_self _ _))]
      exact ih trump (n + 1) acc (fun q hq => h q (List.mem_cons_of_mem _ hq))
  intro ps trump h
  unfold scanStarter
  rw [List.enum]
  exact haux ps trump 0 (100, 0) h

/-! Claim theorems. -/

/-- C1 counterexample: in a game dealt from a full 36-card deck the
conserved quantity of the spec is 36 at the start of play, yet after an
accepted attack, an accepted defend and the attacker passing on the
fully beaten trick, the quantity is 34: _next_turn discards the beaten
table cards, so the sum does not stay at the initial deck size. -/
theorem C1_cardConservation_counterexample :
    demoG1.state = "playing" ∧ (buildDeck 36).length = 36 ∧ cardCount demoG1 = 36 ∧
    action_attack demoG1 1 (some { rank := some "8", suit := some "S" }) = .ok demoG2 ∧
    action_defend demoG2 2 (some 0) (some { rank := some "9", suit := some "S" }) = .ok demoG3 ∧
    action_pass demoG3 1 = .ok demoG4 ∧
    demoG4.state = "playing" ∧ cardCount demoG4 = 34 :=
  ⟨rfl, by decide, by decide, rfl, rfl, rfl, rfl, by decide⟩

/-- C1 amended: over hands without duplicate cards, every accepted
attack, defend and transfer preserves deck + hands + 2 per defended
pair + 1 per unbeaten pair; a take preserves it unless the game
finishes (then the uncleared table is double counted); a pass either
leaves it unchanged or ends a fully beaten trick and lowers it by
exactly two per discarded pair. -/
theorem C1_cardConservation_amended (g : DurakGame)
    (hnd : ∀ p ∈ g.players, p.hand.Nodup) :
    (∀ uid cd g', action_attack g uid cd = .ok g' → cardCount g' = cardCount g) ∧
    (∀ uid ti cd g', action_defend g uid ti cd = .ok g' → cardCount g' = cardCount g) ∧
    (∀ uid cd g', action_transfer g uid cd = .ok g' → cardCount g' = cardCount g) ∧
    (∀ uid g', action_take g uid = .ok g' →
      cardCount g' = cardCount g ∨
      (g'.table = g.table ∧ g'.state = "finished" ∧
        cardCount g' = cardCount g + tableWeight g.table)) ∧
    (∀ uid g', action_pass g uid = .ok g' →
      cardCount g' = cardCount g ∨
      (g'.table = [] ∧ cardCount g' + 2 * g.table.length = cardCount g)) :=
  ⟨fun uid cd g' h => action_attack_cardCount g uid cd g' hnd h,
   fun uid ti cd g' h => action_defend_cardCount g uid ti cd g' hnd h,
   fun uid cd g' h => action_transfer_cardCount g uid cd g' hnd h,
   fun uid g' h => action_take_cardCount g uid g' h,
   fun uid g' h => action_pass_cardCount g uid g' h⟩

/-- C1 amended, instantiated: the pass that ends the demo trick drops
the conserved quantity by two per discarded pair. -/
theorem C1_cardConservation_amended_witness :
    cardCount demoG4 = cardCount demoG3 ∨
    (demoG4.table = [] ∧ cardCount demoG4 + 2 * demoG3.table.length = cardCount demoG3) :=
  (C1_cardConservation_amended demoG3 (by decide)).2.2.2.2 1 demoG4 rfl

/-- C3: a defend attempt by the current defender, holding the played
card, against the unbeaten pair at a valid index, marks the pair
defended exactly when the defend card beats the attack card in the
spec sense (same suit and strictly higher rank, or trump against
non-trump); otherwise the game is unchanged. -/
theorem C3_defend_beats (g : DurakGame) (uid : Nat) (i : Nat) (c atk : Card) (d : Player)
    (_hstate : g.state = "playing")
    (hdefp : g.players[g.defender_idx]? = some d)
    (huid : d.uid = uid)
    (hpair : g.table[i]? = some (atk, none))
    (hheld : handHas d.hand c = true)
    (hrk1 : c.rank ∈ RANKS) (hrk2 : atk.rank ∈ RANKS) :
    (beatsSpec g.trump_suit atk c →
      action_defend g uid (some (i : Int)) (some { rank := some c.rank, suit := some c.suit })
        = .ok { g with
            players := g.players.set g.defender_idx { d with hand := removeCard d.hand c },
            table := g.table.set i (atk, some c) }) ∧
    (¬ beatsSpec g.trump_suit atk c →
      action_defend g uid (some (i : Int)) (some { rank := some c.rank, suit := some c.suit })
        = .ok g) := by
  have hilt : i < g.table.length := by
    by_contra hc
    rw [List.getElem?_eq_none (by omega)] at hpair
    simp at hpair
  have hcard : cardFromDict (some { rank := some c.rank, suit := some c.suit }) = .ok c := rfl
  have hrv1 : rank_value c.rank = .ok (rankValueT c.rank) := by
    simp [rank_value, rankValueT, hrk1]
  have hrv2 : rank_value atk.rank = .ok (rankValueT atk.rank) := by
    simp [rank_value, rankValueT, hrk2]
  have htoNat : (i : Int).toNat = i := Int.toNat_natCast i
  have hrun : action_defend g uid (some (i : Int)) (some { rank := some c.rank, suit := some c.suit })
      = (if (if atk.suit = c.suit then decide (rankValueT atk.rank < rankValueT c.rank)
              else (some c.suit == g.trump_suit)) = true
         then .ok { g with
            players := g.players.set g.defender_idx { d with hand := removeCard d.hand c },
            table := g.table.set i (atk, some c) }
         else .ok g) := by
    unfold action_defend
    rw [pyIdx_ok hdefp, exbind_ok, if_neg (by simp [huid])]
    dsimp only
    rw [exbind_ok]
    rw [if_neg (by omega)]
    rw [htoNat, pyIdx_ok hpair, exbind_ok]
    rw [if_neg (by simp)]
    rw [hcard, exbind_ok]
    rw [if_neg (by simp [hheld])]
    by_cases hsuit : atk.suit = c.suit
    · rw [if_pos hsuit, if_pos hsuit]
      rw [hrv1, exbind_ok, hrv2, exbind_ok, exbind_ok]
      by_cases hlt : rankValueT atk.rank < rankValueT c.rank
      · rw [if_neg (by simp [hlt]), if_pos (by simp [hlt])]
      · rw [if_pos (by simp [hlt]), if_neg (by simp [hlt])]
    · rw [if_neg hsuit, if_neg hsuit]
      rw [exbind_ok]
      by_cases htr : (some c.suit == g.trump_suit) = true
      · rw [if_neg (by simp [htr]), if_pos htr]
      · rw [if_pos (by simp_all), if_neg htr]
  have hequiv : (if atk.suit = c.suit then decide (rankValueT atk.rank < rankValueT c.rank)
      else (some c.suit == g.trump_suit)) = true ↔ beatsSpec g.trump_suit atk c := by
    unfold beatsSpec
    by_cases hsuit : atk.suit = c.suit
    · rw [if_pos hsuit]
      simp only [decide_eq_true_eq]
      constructor
      · intro h
        exact Or.inl ⟨hsuit.symm, h⟩
      · intro h
        rcases h with ⟨_, h2⟩ | ⟨h1, h2⟩
        · exact h2
        · exact absurd (by rw [hsuit]; exact h1) h2
    · rw [if_neg hsuit]
      simp only [beq_iff_eq]
      constructor
      · intro h
        refine Or.inr ⟨h, fun hat => hsuit ?_⟩
        have hss := hat.trans h.symm
        injection hss
      · intro h
        rcases h with ⟨h1, _⟩ | ⟨h1, _⟩
        · exact absurd h1.symm hsuit
        · exact h1
  constructor
  · intro hb
    rw [hrun, if_pos (hequiv.mpr hb)]
  · intro hb
    rw [hrun, if_neg (fun hx => hb (hequiv.mp hx))]

/-- C3 instantiated on the demo game: the 9 of spades covers the 8 of
spades. -/
theorem C3_defend_beats_witness :
    action_defend demoG2 2 (some (0 : Int))
        (some { rank := some "9", suit := some "S" })
      = .ok { demoG2 with
          players := demoG2.players.set demoG2.defender_idx
            { demoG2.players[1] with
                hand := removeCard demoG2.players[1].hand ⟨"9", "S"⟩ },
          table := demoG2.table.set 0 (⟨"8", "S"⟩, some ⟨"9", "S"⟩) } :=
  (C3_defend_beats demoG2 2 0 ⟨"9", "S"⟩ ⟨"8", "S"⟩ demoG2.players[1]
    rfl (by decide) (by decide) (by decide) (by decide) (by decide) (by decide)).1
    (by decide)

/-- C5: with exactly one seated non-out player (the loser), process_win
credits WIN_REWARD exactly once to every other seated player and makes
no credit at all to the loser. Seat uids are unique per room. -/
theorem C5_process_win (g : DurakGame) (l : Player)
    (hone : g.players.filter (fun p => !p.is_out) = [l])
    (hnodup : (g.players.map (fun p => p.uid)).Nodup) :
    (∀ p ∈ g.players, p.uid ≠ l.uid →
      (process_win_calls g).count ⟨p.uid, WIN_REWARD, "durak_win"⟩ = 1) ∧
    (∀ call ∈ process_win_calls g, call.uid ≠ l.uid) := by
  have hloser : loserUid g = some l.uid := by
    unfold loserUid
    rw [hone]
  constructor
  · intro p hp hne
    unfold process_win_calls
    rw [hloser]
    have hcm : ∀ (ql : List Player) (b : EconCall),
        (ql.map (fun q => (⟨q.uid, WIN_REWARD, "durak_win"⟩ : EconCall))).count b
          = ql.countP (fun q => (⟨q.uid, WIN_REWARD, "durak_win"⟩ : EconCall) == b) := by
      intro ql b
      induction ql with
      | nil => rfl
      | cons x xs ih => simp [List.count_cons, List.countP_cons, ih]
    rw [hcm, List.countP_filter]
    have hpred : ∀ q : Player,
        (((⟨q.uid, WIN_REWARD, "durak_win"⟩ : EconCall)
            == ⟨p.uid, WIN_REWARD, "durak_win"⟩)
          && decide (some q.uid ≠ some l.uid))
        = (q.uid == p.uid) := by
      intro q
      by_cases hq : q.uid = p.uid
      · have h1 : ((⟨q.uid, WIN_REWARD, "durak_win"⟩ : EconCall)
            == ⟨p.uid, WIN_REWARD, "durak_win"⟩) = true := by
          rw [hq]
          simp
        have h2 : (q.uid == p.uid) = true := by
          rw [hq]
          simp
        have h3 : decide (some q.uid ≠ some l.uid) = true := by
          simp [hq]
          exact hne
        rw [h1, h2, h3]
        rfl
      · have h1 : ((⟨q.uid, WIN_REWARD, "durak_win"⟩ : EconCall)
            == ⟨p.uid, WIN_REWARD, "durak_win"⟩) = false := by
          rw [beq_eq_false_iff_ne]
          simp [EconCall.mk.injEq, hq]
        have h2 : (q.uid == p.uid) = false := by
          rw [beq_eq_false_iff_ne]
          exact hq
        rw [h1, h2]
        rfl
    rw [List.countP_congr (fun q _ => iff_of_eq (congrArg (fun b => b = true) (hpred q)))]
    have h1 : g.players.countP (fun q => q.uid == p.uid)
        = (g.players.map (fun q => q.uid)).count p.uid := by
      rw [List.count_eq_countP, List.countP_map]
      rfl
    rw [h1]
    exact List.count_eq_one_of_mem hnodup (List.mem_map_of_mem _ hp)
  · intro call hcall
    unfold process_win_calls at hcall
    rw [hloser] at hcall
    simp at hcall
    obtain ⟨q, ⟨hqmem, hqne⟩, hqeq⟩ := hcall
    rw [← hqeq]
    simpa using hqne

/-- C5 instantiated: a finished heads-up game where the out player is
credited once and the loser receives nothing. -/
theorem C5_process_win_witness :
    ((process_win_calls
        { room_id := "w5", settings := { size := some 36, mode := some "podkidnoy" },
          players :=
            [ { uid := 31, name := "x", hand := [], is_out := true },
              { uid := 32, name := "y", hand := [⟨"6", "H"⟩] } ],
          deck := some [], state := "finished" }).count ⟨31, WIN_REWARD, "durak_win"⟩ = 1)
    ∧ ∀ call ∈ process_win_calls
        { room_id := "w5", settings := { size := some 36, mode := some "podkidnoy" },
          players :=
            [ { uid := 31, name := "x", hand := [], is_out := true },
              { uid := 32, name := "y", hand := [⟨"6", "H"⟩] } ],
          deck := some [], state := "finished" }, call.uid ≠ 32 := by
  have h := C5_process_win
    { room_id := "w5", settings := { size := some 36, mode := some "podkidnoy" },
      players :=
        [ { uid := 31, name := "x", hand := [], is_out := true },
          { uid := 32, name := "y", hand := [⟨"6", "H"⟩] } ],
      deck := some [], state := "finished" }
    { uid := 32, name := "y", hand := [⟨"6", "H"⟩] }
    (by decide) (by decide)
  exact ⟨h.1 { uid := 31, name := "x", hand := [], is_out := true }
      (by decide) (by decide), h.2⟩

/-- C9: when every seated player went out on the final trick, process_win
finds no loser (the active list is empty, not a singleton) and credits
WIN_REWARD to every seated player. -/
theorem C9_all_out_no_loser (g : DurakGame)
    (hall : ∀ p ∈ g.players, p.is_out = true) :
    loserUid g = none ∧
    process_win_calls g = g.players.map (fun p => ⟨p.uid, WIN_REWARD, "durak_win"⟩) := by
  have hfilter : g.players.filter (fun p => !p.is_out) = [] := by
    rw [List.filter_eq_nil_iff]
    intro a ha
    simp [hall a ha]
  have hloser : loserUid g = none := by
    unfold loserUid
    rw [hfilter]
  refine ⟨hloser, ?_⟩
  unfold process_win_calls
  rw [hloser]
  rw [List.filter_eq_self.mpr]
  intro a _
  simp

/-- C9 instantiated: both players out, both credited. -/
theorem C9_all_out_no_loser_witness :
    loserUid
      { room_id := "w9", settings := { size := some 36, mode := some "podkidnoy" },
        players :=
          [ { uid := 41, name := "x", hand := [], is_out := true },
            { uid := 42, name := "y", hand := [], is_out := true } ],
        deck := some [], state := "finished" } = none ∧
    process_win_calls
      { room_id := "w9", settings := { size := some 36, mode := some "podkidnoy" },
        players :=
          [ { uid := 41, name := "x", hand := [], is_out := true },
            { uid := 42, name := "y", hand := [], is_out := true } ],
        deck := some [], state := "finished" }
      = [⟨41, WIN_REWARD, "durak_win"⟩, ⟨42, WIN_REWARD, "durak_win"⟩] := by
  have h := C9_all_out_no_loser
    { room_id := "w9", settings := { size := some 36, mode := some "podkidnoy" },
      players :=
        [ { uid := 41, name := "x", hand := [], is_out := true },
          { uid := 42, name := "y", hand := [], is_out := true } ],
      deck := some [], state := "finished" } (by decide)
  exact ⟨h.1, h.2⟩

/-- C7: with a balance below JOIN_COST, create_room rejects and leaves
the whole manager state untouched (no room, no connection list, no
debit), and join_room for a not-yet-seated uid rejects and leaves the
state untouched as well. -/
theorem C7_insufficient_balance_atomic (m : ManagerState) (bal : Nat → Int) (uid : Nat)
    (name : String) (settings : GameSettings) (room_id : String) (now : Nat)
    (hbal : bal uid < JOIN_COST) :
    create_room m bal uid name settings room_id now = (none, m) ∧
    (∀ rid, (∀ gg, lookupRoom m rid = some gg → ∀ p ∈ gg.players, p.uid ≠ uid) →
      join_room m bal uid name rid now = (false, m)) := by
  constructor
  · unfold create_room
    rw [if_pos hbal]
  · intro rid hun
    unfold join_room
    split
    · rfl
    · rename_i game hgame
      have hany : game.players.any (fun p => p.uid == uid) = false := by
        rw [List.any_eq_false]
        intro p hp
        simp only [beq_iff_eq]
        exact hun game hgame p hp
      rw [if_neg (by simp [hany]), if_pos hbal]

/-- C7 instantiated on an empty registry and a broke user. -/
theorem C7_insufficient_balance_atomic_witness :
    create_room { } (fun _ => 0) 51 "zoe"
        { size := some 36, mode := some "podkidnoy" } "w7" 0 = (none, { }) ∧
    join_room { } (fun _ => 0) 51 "zoe" "w7" 0 = (false, { }) := by
  have h := C7_insufficient_balance_atomic { } (fun _ => 0) 51 "zoe"
    { size := some 36, mode := some "podkidnoy" } "w7" 0 (by decide)
  exact ⟨h.1, h.2 "w7" (by intro gg hgg; simp [lookupRoom] at hgg)⟩

/-- C8: join_room by an already seated uid is an idempotent reconnect:
it returns success and changes nothing (no seat added, no debit),
whatever state the room is in. -/
theorem C8_rejoin_idempotent (m : ManagerState) (bal : Nat → Int) (uid : Nat)
    (name : String) (room_id : String) (now : Nat) (g : DurakGame)
    (hg : lookupRoom m room_id = some g)
    (hseated : ∃ p ∈ g.players, p.uid = uid) :
    join_room m bal uid name room_id now = (true, m) := by
  unfold join_room
  split
  · rename_i hnone
    rw [hg] at hnone
    cases hnone
  · rename_i game hgame
    rw [hg] at hgame
    injection hgame with hgg
    subst hgg
    have hany : g.players.any (fun p => p.uid == uid) = true := by
      simp only [List.any_eq_true, beq_iff_eq]
      exact hseated
    rw [if_pos (by simp [hany])]

/-- C8 instantiated: rejoining a playing room changes nothing. -/
theorem C8_rejoin_idempotent_witness :
    join_room
      { rooms := [("w8", demoG1)], connections := [("w8", [1, 2])],
        user_room_map := [(1, "w8"), (2, "w8")], calls := [] }
      (fun _ => 0) 1 "ann" "w8" 0
      = (true,
        { rooms := [("w8", demoG1)], connections := [("w8", [1, 2])],
          user_room_map := [(1, "w8"), (2, "w8")], calls := [] }) :=
  C8_rejoin_idempotent _ (fun _ => 0) 1 "ann" "w8" 0 demoG1 (by decide) (by decide)

/-- C10: when no dealt hand holds a single card of the trump suit, the
lowest-trump scan never updates its accumulator, so the game starts
with the scan defaults: seat 0 attacks and seat 1 defends. -/
theorem C10_no_trump_defaults (g : DurakGame) (shuffled : List Card)
    (h2 : 2 ≤ g.players.length)
    (hnt : ∀ p ∈ (start_game g shuffled).players, ∀ c ∈ p.hand,
      some c.suit ≠ (start_game g shuffled).trump_suit) :
    (start_game g shuffled).attacker_idx = 0 ∧
    (start_game g shuffled).defender_idx = 1 := by
  unfold start_game at hnt ⊢
  rw [if_neg (by omega)] at hnt ⊢
  dsimp only at hnt ⊢
  rw [scanStarter_nomatch (dealRounds 6 g.players shuffled).1 _ hnt]
  have hlen : (dealRounds 6 g.players shuffled).1.length = g.players.length :=
    dealRounds_length 6 g.players shuffled
  constructor
  · rfl
  · show (0 + 1) % (dealRounds 6 g.players shuffled).1.length = 1
    rw [hlen]
    exact Nat.mod_eq_of_lt (by omega)

/-- C10 instantiated: the unshuffled 36-card deck deals only spades and
clubs while the trump is a heart, so seat 0 attacks and seat 1 defends. -/
theorem C10_no_trump_defaults_witness :
    demoG1.attacker_idx = 0 ∧ demoG1.defender_idx = 1 :=
  C10_no_trump_defaults demoRoom (buildDeck 36) (by decide) (by decide)

/-- C6: role rotation at trick end, for tricks that leave the game
running. After a take by the defender the new attacker is the first
active seat after the old defender; after a pass by the main attacker
on a fully beaten table the new attacker is the old defender when still
active, else the first active seat after it; in both cases the new
defender is the first active seat after the new attacker (attacker
excluded). Active flags are those after refill and win marking. -/
theorem C6_role_rotation (g g' : DurakGame) (uid : Nat) :
    (g.defender_idx < g.players.length →
     Option.map (fun d => d.uid) g.players[g.defender_idx]? = some uid →
     action_take g uid = .ok g' → g'.state ≠ "finished" →
     NextActiveAfter g'.players g.defender_idx g'.attacker_idx ∧
     NextActiveOtherAfter g'.players g'.attacker_idx g'.defender_idx) ∧
    (g.defender_idx < g.players.length →
     g.attacker_idx < g.players.length →
     Option.map (fun d => d.uid) g.players[g.defender_idx]? ≠ some uid →
     Option.map (fun a => a.uid) g.players[g.attacker_idx]? = some uid →
     (∀ pr ∈ g.table, pr.2 ≠ none) →
     action_pass g uid = .ok g' → g'.state ≠ "finished" →
     ((activeAt g'.players g.defender_idx = true → g'.attacker_idx = g.defender_idx) ∧
      (activeAt g'.players g.defender_idx = false →
        NextActiveAfter g'.players g.defender_idx g'.attacker_idx) ∧
      NextActiveOtherAfter g'.players g'.attacker_idx g'.defender_idx)) := by
  constructor
  · intro hd hdu h hnf
    cases hdp : g.players[g.defender_idx]? with
    | none => rw [hdp] at hdu; simp at hdu
    | some d =>
      rw [hdp] at hdu
      simp at hdu
      unfold action_take at h
      rw [pyIdx_ok hdp, exbind_ok] at h
      rw [if_neg (by simp [hdu])] at h
      have hroles := nextTurn_roles _ true g' h hnf (by simpa using hd)
      exact ⟨hroles.2.1 rfl, hroles.2.2.2⟩
  · intro hd ha hdu hau htable h hnf
    cases hdp : g.players[g.defender_idx]? with
    | none =>
      rw [List.getElem?_eq_none_iff] at hdp
      omega
    | some d =>
      rw [hdp] at hdu
      simp at hdu
      cases hap : g.players[g.attacker_idx]? with
      | none =>
        rw [List.getElem?_eq_none_iff] at hap
        omega
      | some a =>
        rw [hap] at hau
        simp at hau
        unfold action_pass at h
        rw [pyIdx_ok hdp, exbind_ok] at h
        rw [if_neg (by simpa using fun he => hdu he.symm)] at h
        have hany : g.table.any (fun pr => pr.2 = none) = false := by
          rw [List.any_eq_false]
          intro pr hpr
          simpa using htable pr hpr
        rw [if_neg (by simp [hany])] at h
        rw [pyIdx_ok hap, exbind_ok] at h
        rw [if_pos hau.symm] at h
        have hroles := nextTurn_roles g false g' h hnf hd
        exact ⟨(hroles.2.2.1 rfl).1, (hroles.2.2.1 rfl).2, hroles.2.2.2⟩

/-- C6 instantiated on the demo game: after the defender takes the lone
attack card, and after the attacker passes on the beaten trick. -/
theorem C6_role_rotation_witness :
    (NextActiveAfter demoTake.players demoG2.defender_idx demoTake.attacker_idx ∧
     NextActiveOtherAfter demoTake.players demoTake.attacker_idx demoTake.defender_idx) ∧
    ((activeAt demoG4.players demoG3.defender_idx = true →
        demoG4.attacker_idx = demoG3.defender_idx) ∧
     (activeAt demoG4.players demoG3.defender_idx = false →
        NextActiveAfter demoG4.players demoG3.defender_idx demoG4.attacker_idx) ∧
     NextActiveOtherAfter demoG4.players demoG4.attacker_idx demoG4.defender_idx) :=
  ⟨(C6_role_rotation demoG2 demoTake 2).1 (by decide) (by decide) rfl (by decide),
   (C6_role_rotation demoG3 demoG4 1).2 (by decide) (by decide) (by decide) (by decide)
     (by decide) rfl (by decide)⟩

/-- C4 counterexample: every precondition of the claim holds in
perevodG and the next seated active player clockwise from the defender
(seat 2) holds five cards, strictly more than the resulting table size
of two — by the claim the transfer must succeed — yet action_transfer
no-ops, because the source consults the literal next seat (the out,
empty-handed seat 1) without skipping finished players. -/
theorem C4_transfer_counterexample :
    perevodG.settings.mode = some "perevodnoy" ∧
    perevodG.state = "playing" ∧
    Option.map (fun d => d.uid) perevodG.players[perevodG.defender_idx]? = some 10 ∧
    (∀ pr ∈ perevodG.table, pr.2 = none) ∧
    Option.map (fun d => handHas d.hand ⟨"8", "C"⟩) perevodG.players[perevodG.defender_idx]?
      = some true ∧
    Option.map (fun pr => pr.1.rank) perevodG.table[0]? = some "8" ∧
    activeAt perevodG.players 1 = false ∧
    activeAt perevodG.players 2 = true ∧
    Option.map (fun p => p.hand.length) perevodG.players[2]? = some 5 ∧
    perevodG.table.length + 1 < 5 ∧
    action_transfer perevodG 10 (some { rank := some "8", suit := some "C" })
      = .ok perevodG := by
  refine ⟨rfl, rfl, rfl, by decide, rfl, rfl, rfl, rfl, rfl, by decide, rfl⟩

/-- C4 amended: in a perevodnoy game a transfer by the current defender
(no pair defended, rank matching the first attack card, card held)
succeeds exactly when the player at the literal next seat clockwise —
out or not — holds at least as many cards as the resulting table size;
on failure the state is unchanged, on success the card joins the table
and the roles rotate to that next seat. -/
theorem C4_transfer_amended (g : DurakGame) (uid : Nat) (c : Card) (d np : Player)
    (fp : Card × Option Card)
    (hmode : g.settings.mode = some "perevodnoy")
    (hdefp : g.players[g.defender_idx]? = some d)
    (huid : d.uid = uid)
    (hnobeat : ∀ pr ∈ g.table, pr.2 = none)
    (hfirst : g.table[0]? = some fp)
    (hrank : fp.1.rank = c.rank)
    (hheld : handHas d.hand c = true)
    (hnp : g.players[(g.defender_idx + 1) % g.players.length]? = some np) :
    (np.hand.length < g.table.length + 1 →
      action_transfer g uid (some { rank := some c.rank, suit := some c.suit }) = .ok g) ∧
    (g.table.length + 1 ≤ np.hand.length →
      action_transfer g uid (some { rank := some c.rank, suit := some c.suit })
        = .ok { g with
            players := g.players.set g.defender_idx { d with hand := removeCard d.hand c },
            table := g.table ++ [(c, none)],
            attacker_idx := g.defender_idx,
            defender_idx := (g.defender_idx + 1) % g.players.length }) := by
  have htne : g.table ≠ [] := by
    intro he
    rw [he] at hfirst
    simp at hfirst
  have hany : g.table.any (fun pr => pr.2 ≠ none) = false := by
    rw [List.any_eq_false]
    intro pr hpr
    simp [hnobeat pr hpr]
  have hcard : cardFromDict (some { rank := some c.rank, suit := some c.suit }) = .ok c := rfl
  have hrun : action_transfer g uid (some { rank := some c.rank, suit := some c.suit })
      = (if np.hand.length < g.table.length + 1 then .ok g
         else .ok { g with
            players := g.players.set g.defender_idx { d with hand := removeCard d.hand c },
            table := g.table ++ [(c, none)],
            attacker_idx := g.defender_idx,
            defender_idx := (g.defender_idx + 1) % g.players.length }) := by
    unfold action_transfer
    rw [if_neg (by simp [hmode])]
    rw [pyIdx_ok hdefp, exbind_ok]
    rw [if_neg (by simp [huid])]
    rw [if_neg (by simp; exact fun x x1 hm => hnobeat (x, x1) hm)]
    rw [hcard, exbind_ok]
    rw [if_neg htne]
    rw [pyIdx_ok hfirst, exbind_ok]
    rw [if_neg (by simp [hrank])]
    rw [if_neg (by simp [hheld])]
    dsimp only
    rw [pyIdx_ok hnp, exbind_ok]
  constructor
  · intro hlt
    rw [hrun, if_pos hlt]
  · intro hge
    rw [hrun, if_neg (by omega)]

/-- C4 amended, instantiated: in perevodOkG the next seat holds five
cards, at least the resulting table size of two, so the transfer goes
through and the roles rotate. -/
theorem C4_transfer_amended_witness :
    action_transfer perevodOkG 21 (some { rank := some "8", suit := some "C" })
      = .ok { perevodOkG with
          players := perevodOkG.players.set perevodOkG.defender_idx
            { uid := 21, name := "hana",
              hand := removeCard
                [⟨"8", "C"⟩, ⟨"K", "S"⟩, ⟨"J", "S"⟩, ⟨"9", "S"⟩, ⟨"7", "S"⟩, ⟨"A", "C"⟩]
                ⟨"8", "C"⟩ },
          table := perevodOkG.table ++ [(⟨"8", "C"⟩, none)],
          attacker_idx := perevodOkG.defender_idx,
          defender_idx := (perevodOkG.defender_idx + 1) % perevodOkG.players.length } :=
  (C4_transfer_amended perevodOkG 21 ⟨"8", "C"⟩
      { uid := 21, name := "hana",
        hand := [⟨"8", "C"⟩, ⟨"K", "S"⟩, ⟨"J", "S"⟩, ⟨"9", "S"⟩, ⟨"7", "S"⟩, ⟨"A", "C"⟩] }
      { uid := 20, name := "gil",
        hand := [⟨"A", "S"⟩, ⟨"Q", "S"⟩, ⟨"T", "S"⟩, ⟨"6", "S"⟩, ⟨"K", "C"⟩] }
      (⟨"8", "S"⟩, none)
      rfl rfl rfl (by decide) rfl rfl (by decide) rfl).2 (by decide)

/-! Helper lemmas for the silent-no-op analysis. -/

theorem pyIdx_isOk {α : Type} (l : List α) (i : Nat) (h : i < l.length) :
    pyIdx l i = .ok l[i] := by
  simp [pyIdx, List.getElem?_eq_getElem h]

theorem findIdx?_lt_length {α : Type} (p : α → Bool) :
    ∀ (l : List α) (s i : Nat), List.findIdx? p l s = some i → i < s + l.length := by
  intro l
  induction l with
  | nil => intro s i h; simp [List.findIdx?] at h
  | cons a as ih =>
    intro s i h
    rw [List.findIdx?_cons] at h
    split at h
    · simp at h
      simp
      omega
    · have := ih (s + 1) i h
      simp at this ⊢
      omega

theorem nextTurn_no_raise (g : DurakGame) (dp : Bool) (hdeck : g.deck ≠ none) :
    ∃ x, nextTurn g dp = .ok x := by
  unfold nextTurn
  split
  · exact ⟨_, rfl⟩
  · split
    · rename_i hnone
      exact absurd hnone hdeck
    · dsimp only
      split
      · exact ⟨_, rfl⟩
      · exact ⟨_, rfl⟩

theorem map_noop {α : Type} (f : α → α) : ∀ (l : List α), (∀ a ∈ l, f a = a) → l.map f = l := by
  intro l
  induction l with
  | nil => intro _; rfl
  | cons x xs ih =>
    intro h
    rw [List.map_cons, h x (List.mem_cons_self _ _),
      ih (fun a ha => h a (List.mem_cons_of_mem _ ha))]

theorem attack_no_raise (g : DurakGame) (uid : Nat) (cd : Option CardDict)
    (hdl : g.defender_idx < g.players.length)
    (hcd : ∃ c : Card, cd = some { rank := some c.rank, suit := some c.suit }) :
    ∃ x, action_attack g uid cd = .ok x := by
  unfold action_attack
  split
  · exact ⟨g, rfl⟩
  · rename_i p_idx hfind
    split
    · exact ⟨g, rfl⟩
    split
    · exact ⟨g, rfl⟩
    obtain ⟨c, rfl⟩ := hcd
    rw [show cardFromDict (some { rank := some c.rank, suit := some c.suit }) = .ok c from rfl,
      exbind_ok]
    have hplt : p_idx < g.players.length := by
      have := findIdx?_lt_length _ _ _ _ hfind
      omega
    rw [pyIdx_isOk _ _ hplt, exbind_ok]
    split
    · exact ⟨g, rfl⟩
    split
    · exact ⟨g, rfl⟩
    split
    · exact ⟨g, rfl⟩
    rw [pyIdx_isOk _ _ hdl, exbind_ok]
    split
    · exact ⟨g, rfl⟩
    · exact ⟨_, rfl⟩

theorem defend_no_raise (g : DurakGame) (uid : Nat) (ti : Option Int) (cd : Option CardDict)
    (hdl : g.defender_idx < g.players.length)
    (hti : ti ≠ none)
    (hcd : ∃ c : Card, cd = some { rank := some c.rank, suit := some c.suit } ∧ c.rank ∈ RANKS)
    (htr : ∀ pr ∈ g.table, pr.1.rank ∈ RANKS) :
    ∃ x, action_defend g uid ti cd = .ok x := by
  unfold action_defend
  rw [pyIdx_isOk _ _ hdl, exbind_ok]
  split
  · exact ⟨g, rfl⟩
  dsimp only
  cases ti with
  | none => exact absurd rfl hti
  | some i =>
  dsimp only
  rw [exbind_ok]
  split
  · exact ⟨g, rfl⟩
  rename_i hidx
  have hlt : i.toNat < g.table.length := by omega
  rw [pyIdx_isOk _ _ hlt, exbind_ok]
  split
  · exact ⟨g, rfl⟩
  obtain ⟨c, rfl, hcrk⟩ := hcd
  rw [show cardFromDict (some { rank := some c.rank, suit := some c.suit }) = .ok c from rfl,
    exbind_ok]
  split
  · exact ⟨g, rfl⟩
  split
  · rw [show rank_value c.rank = .ok (rankValueT c.rank) from by
        simp [rank_value, rankValueT, hcrk],
      exbind_ok]
    have hmem : g.table[i.toNat] ∈ g.table := List.getElem_mem hlt
    rw [show rank_value (g.table[i.toNat]).1.rank
          = .ok (rankValueT (g.table[i.toNat]).1.rank) from by
        simp [rank_value, rankValueT, htr _ hmem],
      exbind_ok, exbind_ok]
    split
    · exact ⟨g, rfl⟩
    · exact ⟨_, rfl⟩
  · rw [exbind_ok]
    split
    · exact ⟨g, rfl⟩
    · exact ⟨_, rfl⟩

theorem take_no_raise (g : DurakGame) (uid : Nat)
    (hdl : g.defender_idx < g.players.length)
    (hdeck : g.deck ≠ none) :
    ∃ x, action_take g uid = .ok x := by
  unfold action_take
  rw [pyIdx_isOk _ _ hdl, exbind_ok]
  split
  · exact ⟨g, rfl⟩
  · exact nextTurn_no_raise _ true (by simpa using hdeck)

theorem pass_no_raise (g : DurakGame) (uid : Nat)
    (hdl : g.defender_idx < g.players.length)
    (hal : g.attacker_idx < g.players.length)
    (hdeck : g.deck ≠ none) :
    ∃ x, action_pass g uid = .ok x := by
  unfold action_pass
  rw [pyIdx_isOk _ _ hdl, exbind_ok]
  split
  · exact ⟨g, rfl⟩
  split
  · exact ⟨g, rfl⟩
  rw [pyIdx_isOk _ _ hal, exbind_ok]
  split
  · exact nextTurn_no_raise _ false hdeck
  · exact ⟨g, rfl⟩

theorem transfer_no_raise (g : DurakGame) (uid : Nat) (cd : Option CardDict)
    (hdl : g.defender_idx < g.players.length)
    (hcd : ∃ c : Card, cd = some { rank := some c.rank, suit := some c.suit }) :
    ∃ x, action_transfer g uid cd = .ok x := by
  unfold action_transfer
  split
  · exact ⟨g, rfl⟩
  rw [pyIdx_isOk _ _ hdl, exbind_ok]
  split
  · exact ⟨g, rfl⟩
  split
  · exact ⟨g, rfl⟩
  obtain ⟨c, rfl⟩ := hcd
  rw [show cardFromDict (some { rank := some c.rank, suit := some c.suit }) = .ok c from rfl,
    exbind_ok]
  split
  · exact ⟨g, rfl⟩
  rename_i htne
  have h0 : 0 < g.table.length := by
    cases ht : g.table with
    | nil => exact absurd ht htne
    | cons a as => simp [ht]
  rw [pyIdx_isOk _ _ h0, exbind_ok]
  split
  · exact ⟨g, rfl⟩
  split
  · exact ⟨g, rfl⟩
  dsimp only
  have hnlt : (g.defender_idx + 1) % g.players.length < g.players.length :=
    Nat.mod_lt _ (by omega)
  rw [pyIdx_isOk _ _ hnlt, exbind_ok]
  split
  · exact ⟨g, rfl⟩
  · exact ⟨_, rfl⟩

theorem unseated_noop (g : DurakGame) (uid : Nat) (cd : Option CardDict) (ti : Option Int)
    (hdl : g.defender_idx < g.players.length)
    (hal : g.attacker_idx < g.players.length)
    (hun : ∀ p ∈ g.players, p.uid ≠ uid) :
    action_attack g uid cd = .ok g ∧ action_defend g uid ti cd = .ok g ∧
    action_take g uid = .ok g ∧ action_pass g uid = .ok g ∧
    action_transfer g uid cd = .ok g := by
  have hdef : g.players[g.defender_idx].uid ≠ uid := hun _ (List.getElem_mem hdl)
  have hatt : g.players[g.attacker_idx].uid ≠ uid := hun _ (List.getElem_mem hal)
  refine ⟨?_, ?_, ?_, ?_, ?_⟩
  · unfold action_attack
    rw [show g.players.findIdx? (fun p => p.uid == uid) = none from
      List.findIdx?_eq_none_iff.mpr (fun p hp => by simp [hun p hp])]
  · unfold action_defend
    rw [pyIdx_isOk _ _ hdl, exbind_ok, if_pos hdef]
  · unfold action_take
    rw [pyIdx_isOk _ _ hdl, exbind_ok, if_pos hdef]
  · unfold action_pass
    rw [pyIdx_isOk _ _ hdl, exbind_ok,
      if_neg (show ¬uid = g.players[g.defender_idx].uid from fun he => hdef he.symm)]
    split
    · rfl
    · rw [pyIdx_isOk _ _ hal, exbind_ok,
        if_neg (show ¬uid = g.players[g.attacker_idx].uid from fun he => hatt he.symm)]
  · unfold action_transfer
    split
    · rfl
    · rw [pyIdx_isOk _ _ hdl, exbind_ok, if_pos hdef]

theorem wrong_turn_noop (g : DurakGame) (uid : Nat) (cd : Option CardDict) (ti : Option Int)
    (d : Player) (hdp : g.players[g.defender_idx]? = some d) (hne : d.uid ≠ uid) :
    action_defend g uid ti cd = .ok g ∧ action_take g uid = .ok g ∧
    action_transfer g uid cd = .ok g := by
  refine ⟨?_, ?_, ?_⟩
  · unfold action_defend
    rw [pyIdx_ok hdp, exbind_ok, if_pos hne]
  · unfold action_take
    rw [pyIdx_ok hdp, exbind_ok, if_pos hne]
  · unfold action_transfer
    split
    · rfl
    · rw [pyIdx_ok hdp, exbind_ok, if_pos hne]

theorem invalid_target_noop (g : DurakGame) (uid : Nat) (cd : Option CardDict)
    (i : Int) (d : Player) (hdp : g.players[g.defender_idx]? = some d)
    (hbad : i < 0 ∨ (g.table.length : Int) ≤ i) :
    action_defend g uid (some i) cd = .ok g := by
  unfold action_defend
  rw [pyIdx_ok hdp, exbind_ok]
  split
  · rfl
  · dsimp only
    rw [exbind_ok, if_pos hbad]

theorem add_player_noop (g : DurakGame) (uid : Nat)
    (h : g.state ≠ "waiting" ∨ 4 ≤ g.players.length ∨ ∃ p ∈ g.players, p.uid = uid)
    (name : String) (now : Nat) :
    add_player g uid name now = (false, g) := by
  unfold add_player
  rcases h with h | h | h
  · rw [if_pos h]
  · by_cases h1 : g.state ≠ "waiting"
    · rw [if_pos h1]
    · rw [if_neg h1, if_pos h]
  · by_cases h1 : g.state ≠ "waiting"
    · rw [if_pos h1]
    · rw [if_neg h1]
      by_cases h2 : 4 ≤ g.players.length
      · rw [if_pos h2]
      · rw [if_neg h2]
        rw [if_pos (by
          simp only [List.any_eq_true, beq_iff_eq]
          exact h)]

theorem set_ready_unseated (g : DurakGame) (uid : Nat)
    (hun : ∀ p ∈ g.players, p.uid ≠ uid) (r : Bool) (now : Nat) :
    set_ready g uid r now = g := by
  unfold set_ready
  rw [map_noop _ _ (fun p hp => by rw [if_neg (hun p hp)])]

/-- C2 counterexample: in a well-formed playing position, a defend
message whose card payload is None (as handle_message forwards when the
key is absent) reaches Card(card_dict[rank], ...) and raises a
TypeError instead of silently no-opping: an error does surface to the
caller. -/
theorem C2_silent_noop_counterexample :
    demoG2.state = "playing" ∧
    Option.map (fun d => d.uid) demoG2.players[demoG2.defender_idx]? = some 2 ∧
    Option.map (fun pr => pr.2) demoG2.table[0]? = some none ∧
    action_defend demoG2 2 (some 0) none = .error .typeError :=
  ⟨rfl, rfl, rfl, rfl⟩

/-- C2 amended: over structurally well-formed states (attacker and
defender indices seated, deck built) and well-formed payloads (card
dict with both keys and a rank from RANKS, target index present, table
attack ranks from RANKS), the engine operations never raise; a uid not
seated, a wrong-turn defend/take/transfer, an out-of-range target
index, a violated add_player precondition and a set_ready for an
unknown uid all leave the game unchanged. A None or key-missing card
dict, a missing target index, or an unseated defender index instead
raises (TypeError, KeyError or IndexError). -/
theorem C2_silent_noop_amended (g : DurakGame) (uid : Nat) (cd : Option CardDict)
    (ti : Option Int)
    (hdl : g.defender_idx < g.players.length)
    (hal : g.attacker_idx < g.players.length)
    (hdeck : g.deck ≠ none)
    (hcd : ∃ c : Card, cd = some { rank := some c.rank, suit := some c.suit } ∧ c.rank ∈ RANKS)
    (hti : ti ≠ none)
    (htr : ∀ pr ∈ g.table, pr.1.rank ∈ RANKS) :
    ((∃ x, action_attack g uid cd = .ok x) ∧
     (∃ x, action_defend g uid ti cd = .ok x) ∧
     (∃ x, action_take g uid = .ok x) ∧
     (∃ x, action_pass g uid = .ok x) ∧
     (∃ x, action_transfer g uid cd = .ok x)) ∧
    ((∀ p ∈ g.players, p.uid ≠ uid) →
      action_attack g uid cd = .ok g ∧ action_defend g uid ti cd = .ok g ∧
      action_take g uid = .ok g ∧ action_pass g uid = .ok g ∧
      action_transfer g uid cd = .ok g) ∧
    (∀ d, g.players[g.defender_idx]? = some d → d.uid ≠ uid →
      action_defend g uid ti cd = .ok g ∧ action_take g uid = .ok g ∧
      action_transfer g uid cd = .ok g) ∧
    (∀ i : Int, ti = some i → (i < 0 ∨ (g.table.length : Int) ≤ i) →
      ∀ d, g.players[g.defender_idx]? = some d →
      action_defend g uid ti cd = .ok g) ∧
    ((g.state ≠ "waiting" ∨ 4 ≤ g.players.length ∨ ∃ p ∈ g.players, p.uid = uid) →
      ∀ name now, add_player g uid name now = (false, g)) ∧
    ((∀ p ∈ g.players, p.uid ≠ uid) → ∀ r now, set_ready g uid r now = g) := by
  obtain ⟨c, hcdc, hcrk⟩ := hcd
  refine ⟨⟨?_, ?_, ?_, ?_, ?_⟩, ?_, ?_, ?_, ?_, ?_⟩
  · exact attack_no_raise g uid cd hdl ⟨c, hcdc⟩
  · exact defend_no_raise g uid ti cd hdl hti ⟨c, hcdc, hcrk⟩ htr
  · exact take_no_raise g uid hdl hdeck
  · exact pass_no_raise g uid hdl hal hdeck
  · exact transfer_no_raise g uid cd hdl ⟨c, hcdc⟩
  · exact fun hun => unseated_noop g uid cd ti hdl hal hun
  · exact fun d hdp hne => wrong_turn_noop g uid cd ti d hdp hne
  · intro i hi hbad d hdp
    subst hi
    exact invalid_target_noop g uid cd i d hdp hbad
  · exact fun h name now => add_player_noop g uid h name now
  · exact fun hun r now => set_ready_unseated g uid hun r now

/-- C2 amended, instantiated: an unseated uid probing the demo game
with a well-formed payload is a silent no-op on every operation. -/
theorem C2_silent_noop_amended_witness :
    action_attack demoG1 7 (some { rank := some "6", suit := some "H" }) = .ok demoG1 ∧
    action_defend demoG1 7 (some 0) (some { rank := some "6", suit := some "H" }) = .ok demoG1 ∧
    action_take demoG1 7 = .ok demoG1 ∧ action_pass demoG1 7 = .ok demoG1 ∧
    action_transfer demoG1 7 (some { rank := some "6", suit := some "H" }) = .ok demoG1 :=
  (C2_silent_noop_amended demoG1 7 (some { rank := some "6", suit := some "H" }) (some 0)
    (by decide) (by decide) (by decide)
    ⟨⟨"6", "H"⟩, rfl, by decide⟩ (by decide) (by decide)).2.1 (by decide)

end FirstGamble
